import Mathlib

/-!
Verification development for the `ecc` compiler generator (`ecc.py`).

The Python program is embedded shallowly:

* plain strings are modelled as `List Char` (written as Lean `String` where
  convenient, converting with `String.data` / `String.mk`);
* Python's nested list/dict/str trees (AST and IR values) are the inductive
  type `Tree`;
* functions that Python runs with unbounded `while` loops or with recursion
  whose depth is data-dependent take an explicit fuel argument (`Nat`), so
  that every definition is structurally recursive and kernel-evaluable;
  exhausting fuel is reported through a dedicated error constructor and
  models non-termination, never a result the Python code could produce;
* Python exceptions become `Except` error constructors;
* the `re` module is embedded as follows: the fixed patterns the program
  builds itself (delimiter identifiers `@<n><ch>`, template placeholders
  `&name` / `!name` / `$name`, the instruction token grammar `INS`, the
  alternative separators of `.fmt` / `.map` bodies) are implemented
  concretely, while the user-supplied grammar regexes that the parser
  matches against source text are an abstract `Matcher` oracle parameter.
-/

namespace ECC

/-! ## String utilities (fixed-pattern `re` operations) -/

/-- Literal substring test: does `pat` occur contiguously in `s`?
Embeds `re.search` for the literal patterns the program builds
(`&name`, `!name`, `@<id><ch>`; none of their characters are regex
metacharacters, so `re.search` is substring search there). -/
def hasSub (pat : List Char) : List Char → Bool
  | [] => pat.isEmpty
  | c :: rest => pat.isPrefixOf (c :: rest) || hasSub pat rest

/-- Fuelled worker for `replaceAll`.  Replaces every non-overlapping
occurrence of `pat` (leftmost first), never rescanning replaced text —
the semantics of `re.sub(pat, repl, s)` for a literal `pat`.  `fuel`
bounds the number of characters consumed; callers pass `s.length`. -/
def replaceAllA (pat repl : List Char) : Nat → List Char → List Char
  | 0, s => s
  | _ + 1, [] => []
  | f + 1, c :: rest =>
    if pat.isPrefixOf (c :: rest) && !pat.isEmpty then
      repl ++ replaceAllA pat repl f ((c :: rest).drop pat.length)
    else
      c :: replaceAllA pat repl f rest

/-- `re.sub(pat, repl, s)` for a literal, nonempty `pat` (the program only
substitutes its own placeholder tokens, which are nonempty literals). -/
def replaceAll (pat repl s : List Char) : List Char :=
  replaceAllA pat repl s.length s

/-- String-level wrappers used by the generator embedding. -/
def hasSubS (pat s : String) : Bool := hasSub pat.data s.data

def replaceAllS (pat repl s : String) : String :=
  String.mk (replaceAll pat.data repl.data s.data)

/-- Maximal leading run of decimal digits, and the rest. -/
def splitDigits (s : List Char) : List Char × List Char :=
  (s.takeWhile Char.isDigit, s.dropWhile Char.isDigit)

/-- Fuelled worker for `rmAtIds`: deletes every occurrence of
`@` followed by one or more digits (the pattern `@[0-9]+` of
`re.sub('@[0-9]+', '', _expr)` at ecc.py:182). -/
def rmAtIdsA : Nat → List Char → List Char
  | 0, s => s
  | _ + 1, [] => []
  | f + 1, '@' :: rest =>
    match splitDigits rest with
    | ([], _) => '@' :: rmAtIdsA f rest
    | (_ :: _, rest') => rmAtIdsA f rest'
  | f + 1, c :: rest => c :: rmAtIdsA f rest

/-- `re.sub('@[0-9]+', '', s)`. -/
def rmAtIds (s : List Char) : List Char := rmAtIdsA s.length s

/-- Hexadecimal digit test. -/
def isHexD (c : Char) : Bool :=
  c.isDigit || ('a' ≤ c && c ≤ 'f') || ('A' ≤ c && c ≤ 'F')

/-- Hexadecimal digit value. -/
def hexVal (c : Char) : Nat :=
  if c.isDigit then c.toNat - '0'.toNat
  else if 'a' ≤ c && c ≤ 'f' then c.toNat - 'a'.toNat + 10
  else if 'A' ≤ c && c ≤ 'F' then c.toNat - 'A'.toNat + 10
  else 0

/-- Octal digit test. -/
def isOctD (c : Char) : Bool := '0' ≤ c && c ≤ '7'

/-- Octal digit value. -/
def octVal (c : Char) : Nat := c.toNat - '0'.toNat

/-- Read exactly `n` hexadecimal digits as a value (for `\xNN`,
`\uXXXX`, `\UXXXXXXXX`); `none` when fewer follow. -/
def takeHex : Nat → List Char → Option (Nat × List Char)
  | 0, s => some (0, s)
  | _ + 1, [] => none
  | n + 1, c :: r =>
    if isHexD c then
      (takeHex n r).map fun p => (hexVal c * 16 ^ n + p.1, p.2)
    else none

/-- One escape of the `unicode_escape` codec: takes the text after a
backslash, returns the emitted characters and the remaining text.
Handled: `\n \t \r \a \b \f \v \\ \'` and the double-quote
escape, backslash-newline (line continuation, emits nothing), one- to
three-digit octal escapes, `\xNN`, `\uXXXX` and `\UXXXXXXXX`.  An
unknown escape keeps both characters, as the codec does (with a
deprecation warning).  Where the codec raises `ValueError` — `\x`/`\u`/
`\U` with too few hex digits, a lone trailing backslash, `\N{...}` — the
characters are kept verbatim here; those inputs crash the Python process
and no theorem reaches them.  A scalar value outside Unicode (possible
only via `\UXXXXXXXX`) falls back to `Char.ofNat`'s default; the codec
raises there too. -/
def escStep : List Char → List Char × List Char
  | [] => (['\\'], [])
  | c :: r =>
    if c = 'n' then (['\n'], r)
    else if c = 't' then (['\t'], r)
    else if c = 'r' then (['\r'], r)
    else if c = 'a' then ([Char.ofNat 7], r)
    else if c = 'b' then ([Char.ofNat 8], r)
    else if c = 'f' then ([Char.ofNat 12], r)
    else if c = 'v' then ([Char.ofNat 11], r)
    else if c = '\\' then (['\\'], r)
    else if c = '\'' then (['\''], r)
    else if c = '"' then (['"'], r)
    else if c = '\n' then ([], r)
    else if isOctD c then
      match r with
      | d2 :: r2 =>
        if isOctD d2 then
          match r2 with
          | d3 :: r3 =>
            if isOctD d3 then
              ([Char.ofNat (octVal c * 64 + octVal d2 * 8 + octVal d3)], r3)
            else ([Char.ofNat (octVal c * 8 + octVal d2)], r2)
          | [] => ([Char.ofNat (octVal c * 8 + octVal d2)], [])
        else ([Char.ofNat (octVal c)], r)
      | [] => ([Char.ofNat (octVal c)], [])
    else if c = 'x' then
      match takeHex 2 r with
      | some (v, r2) => ([Char.ofNat v], r2)
      | none => (['\\', c], r)
    else if c = 'u' then
      match takeHex 4 r with
      | some (v, r2) => ([Char.ofNat v], r2)
      | none => (['\\', c], r)
    else if c = 'U' then
      match takeHex 8 r with
      | some (v, r2) => ([Char.ofNat v], r2)
      | none => (['\\', c], r)
    else (['\\', c], r)

/-- Fuelled worker for `decodeEsc`; each step consumes at least one
character, so `s.length` fuel suffices. -/
def decodeEscA : Nat → List Char → List Char
  | 0, s => s
  | _ + 1, [] => []
  | f + 1, '\\' :: rest =>
    (escStep rest).1 ++ decodeEscA f (escStep rest).2
  | f + 1, c :: rest => c :: decodeEscA f rest

/-- Decode backslash escapes: embeds
`fmt.encode('utf-8').decode('unicode_escape')` (ecc.py:367-368), via
`escStep`, on ASCII text.  (Non-ASCII characters would be re-interpreted
byte-wise by the codec — the utf-8 bytes come back latin-1-decoded; the
grammars and sources here are ASCII and that path is outside the
embedded fragment.) -/
def decodeEsc (s : List Char) : List Char := decodeEscA s.length s

/-- String-level escape decoding. -/
def decodeEscS (s : String) : String := String.mk (decodeEsc s.data)

/-! ## Trees

Python's nested list/dict/str values (AST nodes, IR values). -/

/-- A Python value as manipulated by `Parser._parse`, `Parser._reduce`,
`Parser._translate` and `Generator._generate`: a string, a list, or a
dict (modelled as an insertion-ordered association list; the dicts the
program builds have pairwise distinct keys). -/
inductive Tree where
  | str : String → Tree
  | list : List Tree → Tree
  | dict : List (String × Tree) → Tree

/-- `if len(_struct) == 1: return _struct[0] else: return _struct`
(ecc.py:247-248). -/
def reduce1 (ys : List Tree) : Tree :=
  match ys with
  | [y] => y
  | _ => .list ys

/-- The dictionary-entry rewrite of `Parser._reduce` (ecc.py:252-256):
if the (already reduced) value is a dict with exactly one key equal to
the outer key, collapse it. -/
def dictStep (k : String) (v : Tree) : String × Tree :=
  match v with
  | .dict [(k2, w)] => if k2 = k then (k, w) else (k, .dict [(k2, w)])
  | v2 => (k, v2)

/-- `Parser._reduce` (ecc.py:232-259): post-order rewrite collapsing
singleton lists and duplicated-key singleton dicts. -/
def reduce : Tree → Tree
  | .str s => .str s
  | .list xs => reduce1 (xs.attach.map fun x => reduce x.1)
  | .dict l => .dict (l.attach.map fun e => dictStep e.1.1 (reduce e.1.2))
termination_by t => sizeOf t
decreasing_by
  · have := List.sizeOf_lt_of_mem x.2
    simp only [Tree.list.sizeOf_spec]
    omega
  · obtain ⟨⟨k, v⟩, he⟩ := e
    have h1 := List.sizeOf_lt_of_mem he
    simp only [Tree.dict.sizeOf_spec, Prod.mk.sizeOf_spec] at *
    omega

theorem reduce_str (s : String) : reduce (.str s) = .str s := by
  rw [reduce]

theorem reduce_list (xs : List Tree) :
    reduce (.list xs) = reduce1 (xs.map reduce) := by
  rw [reduce, List.attach_map_coe]

theorem reduce_dict (l : List (String × Tree)) :
    reduce (.dict l) = .dict (l.map fun e => dictStep e.1 (reduce e.2)) := by
  rw [reduce]
  congr 1
  rw [← List.attach_map_coe l (fun e => dictStep e.1 (reduce e.2))]

/-- Structural induction over `Tree`, recursing into list elements and
dictionary values. -/
theorem tree_ind (P : Tree → Prop)
    (hs : ∀ s, P (.str s))
    (hl : ∀ xs, (∀ x ∈ xs, P x) → P (.list xs))
    (hd : ∀ l, (∀ e ∈ l, P e.2) → P (.dict l)) :
    ∀ t, P t
  | .str s => hs s
  | .list xs => hl xs fun x hx =>
      have : sizeOf x < 1 + sizeOf xs := by
        have := List.sizeOf_lt_of_mem hx
        omega
      tree_ind P hs hl hd x
  | .dict l => hd l fun e he =>
      have : sizeOf e.2 < 1 + sizeOf l := by
        have h1 := List.sizeOf_lt_of_mem he
        obtain ⟨k, v⟩ := e
        simp only [Prod.mk.sizeOf_spec] at *
        omega
      tree_ind P hs hl hd e.2
termination_by t => sizeOf t

/-- Is `v` a dict with exactly one key, equal to `k`?  This is the guard
`isinstance(_value, dict) and len(_value) == 1 and key in _value` of
ecc.py:254 specialized to singleton dicts (for `len(_value) == 1`,
`key in _value` holds iff the unique key equals `key`). -/
def isSingletonK (k : String) : Tree → Bool
  | .dict [(k2, _)] => k2 = k
  | _ => false

/-- A tree is reduced: no singleton lists, and no dict entry whose value
is a singleton dict under the same key. -/
def isRed : Tree → Bool
  | .str _ => true
  | .list xs => (xs.length != 1) && (xs.attach.all fun x => isRed x.1)
  | .dict l => l.attach.all fun e => isRed e.1.2 && !isSingletonK e.1.1 e.1.2
termination_by t => sizeOf t
decreasing_by
  · have := List.sizeOf_lt_of_mem x.2
    simp only [Tree.list.sizeOf_spec]
    omega
  · obtain ⟨⟨k, v⟩, he⟩ := e
    have h1 := List.sizeOf_lt_of_mem he
    simp only [Tree.dict.sizeOf_spec, Prod.mk.sizeOf_spec] at *
    omega

theorem isRed_str (s : String) : isRed (.str s) = true := by rw [isRed]

theorem isRed_list (xs : List Tree) :
    isRed (.list xs) = true ↔ xs.length ≠ 1 ∧ ∀ x ∈ xs, isRed x = true := by
  rw [isRed]
  simp [List.all_eq_true]

theorem isRed_dict (l : List (String × Tree)) :
    isRed (.dict l) = true ↔
      ∀ e ∈ l, isRed e.2 = true ∧ isSingletonK e.1 e.2 = false := by
  rw [isRed]
  simp [List.all_eq_true]

theorem reduce1_of_length_ne (xs : List Tree) (h : xs.length ≠ 1) :
    reduce1 xs = .list xs := by
  match xs with
  | [] => rfl
  | [y] => exact absurd rfl h
  | _ :: _ :: _ => rfl

theorem dictStep_fst (k : String) (v : Tree) : (dictStep k v).1 = k := by
  unfold dictStep
  match v with
  | .dict [(k2, w)] => dsimp; split <;> rfl
  | .str _ => rfl
  | .list _ => rfl
  | .dict [] => rfl
  | .dict (_ :: _ :: _) => rfl

theorem dictStep_of_not_singleton (k : String) (v : Tree)
    (h : isSingletonK k v = false) : dictStep k v = (k, v) := by
  unfold dictStep
  match v with
  | .str _ => rfl
  | .list _ => rfl
  | .dict [] => rfl
  | .dict (_ :: _ :: _) => rfl
  | .dict [(k2, w)] =>
    simp only [isSingletonK, decide_eq_false_iff_not] at h
    simp [h]

theorem not_singleton_of_shape (k : String) (v : Tree)
    (h : ∀ k2 w, v ≠ .dict [(k2, w)]) : isSingletonK k v = false := by
  match v with
  | .str _ => rfl
  | .list _ => rfl
  | .dict [] => rfl
  | .dict (_ :: _ :: _) => rfl
  | .dict [(k2, w)] => exact absurd rfl (h k2 w)

/-- On a reduced tree, `Parser._reduce` is the identity. -/
theorem reduce_of_isRed : ∀ t, isRed t = true → reduce t = t := by
  refine tree_ind _ ?_ ?_ ?_
  · intro s _
    exact reduce_str s
  · intro xs ih h
    obtain ⟨hlen, hall⟩ := (isRed_list xs).mp h
    have hmap : xs.map reduce = xs := by
      have : xs.map reduce = xs.map id :=
        List.map_congr_left fun x hx => ih x hx (hall x hx)
      simpa using this
    rw [reduce_list, hmap, reduce1_of_length_ne xs hlen]
  · intro l ih h
    have hall := (isRed_dict l).mp h
    rw [reduce_dict]
    congr 1
    have : (l.map fun e => dictStep e.1 (reduce e.2)) = l.map id := by
      refine List.map_congr_left fun e he => ?_
      obtain ⟨h1, h2⟩ := hall e he
      rw [ih e he h1, dictStep_of_not_singleton e.1 e.2 h2]
      rfl
    simpa using this

/-- The result of `Parser._reduce` is always reduced. -/
theorem isRed_reduce : ∀ t, isRed (reduce t) = true := by
  refine tree_ind _ ?_ ?_ ?_
  · intro s
    rw [reduce_str]
    exact isRed_str s
  · intro xs ih
    rw [reduce_list]
    match hxs : xs with
    | [] => exact (isRed_list []).mpr (by simp)
    | [a] =>
      show isRed (reduce1 [reduce a]) = true
      exact ih a (by simp)
    | a :: b :: t =>
      show isRed (reduce1 ((a :: b :: t).map reduce)) = true
      rw [reduce1_of_length_ne _ (by simp)]
      refine (isRed_list _).mpr ⟨by simp, ?_⟩
      intro y hy
      obtain ⟨x, hx, rfl⟩ := List.mem_map.mp hy
      exact ih x hx
  · intro l ih
    rw [reduce_dict]
    refine (isRed_dict _).mpr ?_
    intro e he
    obtain ⟨p, hp, rfl⟩ := List.mem_map.mp he
    have hred : isRed (reduce p.2) = true := ih p hp
    match hv : reduce p.2 with
    | .dict [(k2, w)] =>
      rw [hv] at hred
      obtain ⟨hw, hsk⟩ := ((isRed_dict _).mp hred) (k2, w) (by simp)
      simp only at hw hsk
      by_cases hk : k2 = p.1
      · have heq : dictStep p.1 (Tree.dict [(k2, w)]) = (p.1, w) := by
          unfold dictStep; simp [hk]
        rw [heq]
        exact ⟨hw, by simpa [hk] using hsk⟩
      · have heq : dictStep p.1 (Tree.dict [(k2, w)]) = (p.1, .dict [(k2, w)]) := by
          unfold dictStep; simp [hk]
        rw [heq]
        exact ⟨hred, by simp [isSingletonK, hk]⟩
    | .str s =>
      rw [hv] at hred
      exact ⟨hred, rfl⟩
    | .list ys =>
      rw [hv] at hred
      exact ⟨hred, rfl⟩
    | .dict [] =>
      rw [hv] at hred
      exact ⟨hred, rfl⟩
    | .dict (p1 :: p2 :: ps) =>
      rw [hv] at hred
      exact ⟨hred, rfl⟩

/-- C7: tree reduction is idempotent — for every tree `x` (any nesting of
lists, dictionaries and strings), `Parser._reduce(Parser._reduce(x)) ==
Parser._reduce(x)`. -/
theorem c7_reduce_idempotent : ∀ t, reduce (reduce t) = reduce t :=
  fun t => reduce_of_isRed (reduce t) (isRed_reduce t)

/-! ## Preprocessing (`Parser._preprocess`, ecc.py:123-155)

The regex deletions (line 133) and substitutions (line 135) precede the
balanced-delimiter rewrite; they are regex applications and are modelled,
where a claim needs them, as abstract text rewriters.  The balance rewrite
itself (lines 137-153) is embedded concretely below.  The Python code
rewrites the string in place and jumps the scan index past each inserted
identifier, which is equivalent to the left-to-right transducer here. -/

/-- One pass of the delimiter rewrite for the balance pair `(p, s)`
(the `while idx < len(source)` loop, ecc.py:140-152), starting from
counter value `ctr`.  On the prefix character the identifier `@{ctr}p`
is written and the counter incremented; on the suffix character the
counter is decremented first and `@{ctr-1}s` written.  Returns the final
counter and the rewritten text. -/
def balPass (p s : Char) : Int → List Char → Int × List Char
  | ctr, [] => (ctr, [])
  | ctr, c :: rest =>
    if c = p then
      let r := balPass p s (ctr + 1) rest
      (r.1, '@' :: (toString ctr).data ++ c :: r.2)
    else if c = s then
      let r := balPass p s (ctr - 1) rest
      (r.1, '@' :: (toString (ctr - 1)).data ++ c :: r.2)
    else
      let r := balPass p s ctr rest
      (r.1, c :: r.2)

/-- The full rewrite over all declared balance pairs.  The counter `ctr`
is initialized once (ecc.py:137) and threaded through the passes of the
successive pairs. -/
def balRewrite (sbal : List (Char × Char)) (src : List Char) : Int × List Char :=
  sbal.foldl (fun st pr => balPass pr.1 pr.2 st.1 st.2) (0, src)

/-- Preprocessing errors. -/
inductive PrepErr where
  | unbalanced (residual : Int)

/-- The balance stage of `Parser._preprocess` (ecc.py:137-155), applied
to the text left after the deletions and substitutions: run the rewrite,
and fail iff the final counter is nonzero (line 153). -/
def preprocessBal (sbal : List (Char × Char)) (src : List Char) :
    Except PrepErr (List Char) :=
  let r := balRewrite sbal src
  if r.1 = 0 then .ok r.2 else .error (.unbalanced r.1)

/-- C1: with a single declared balance pair `(p, s)`, the preprocessing
rewrite (after deletions and substitutions) is a single left-to-right
pass with a counter starting at 0 that writes `@{n}{p}` on a prefix and
then increments, writes `@{n-1}{s}` on a suffix and then decrements
(the code decrements first and then writes the new counter value, which
is the same identifier `@{n-1}{s}`), and copies every other character;
in particular `(a(b)c)` with pair `()` rewrites to `@0(a@1(b@1)c@0)`. -/
theorem c1_preprocess_rewrite (p s : Char) (hps : p ≠ s) :
    (∀ (ctr : Int) (rest : List Char),
      balPass p s ctr (p :: rest) =
        ((balPass p s (ctr + 1) rest).1,
         '@' :: (toString ctr).data ++ p :: (balPass p s (ctr + 1) rest).2)) ∧
    (∀ (ctr : Int) (rest : List Char),
      balPass p s ctr (s :: rest) =
        ((balPass p s (ctr - 1) rest).1,
         '@' :: (toString (ctr - 1)).data ++ s :: (balPass p s (ctr - 1) rest).2)) ∧
    (∀ (c : Char) (ctr : Int) (rest : List Char), c ≠ p → c ≠ s →
      balPass p s ctr (c :: rest) =
        ((balPass p s ctr rest).1, c :: (balPass p s ctr rest).2)) ∧
    preprocessBal [('(', ')')] "(a(b)c)".data = .ok "@0(a@1(b@1)c@0)".data := by
  refine ⟨?_, ?_, ?_, ?_⟩
  · intro ctr rest
    simp [balPass]
  · intro ctr rest
    simp [balPass, Ne.symm hps]
  · intro c ctr rest hcp hcs
    simp [balPass, hcp, hcs]
  · rfl

/-- Witness for C1 at the pair `()` and the source of the spec's
scenario 2. -/
theorem c1_preprocess_rewrite_witness :
    ('(' : Char) ≠ ')' ∧
    preprocessBal [('(', ')')] "(a(b)c)".data = .ok "@0(a@1(b@1)c@0)".data :=
  ⟨by decide, (c1_preprocess_rewrite '(' ')' (by decide)).2.2.2⟩

/-- C8: preprocessing fails with the unbalanced-delimiters error iff the
balance counter is nonzero after the full rewrite pass; when it ends at
zero the rewritten text is returned without error.  The two concrete
conjuncts show the condition really is the final counter value: `)(`
brings the counter back to 0 and is accepted, while `(` leaves it at 1
and is rejected. -/
theorem c8_unbalanced_iff_counter :
    (∀ (sbal : List (Char × Char)) (src : List Char),
      preprocessBal sbal src =
        if (balRewrite sbal src).1 = 0 then .ok (balRewrite sbal src).2
        else .error (.unbalanced (balRewrite sbal src).1)) ∧
    preprocessBal [('(', ')')] ")(".data = .ok "@-1)@-1(".data ∧
    preprocessBal [('(', ')')] "(".data = .error (.unbalanced 1) := by
  exact ⟨fun sbal src => rfl, rfl, rfl⟩

/-! ## Generator (`Generator`, ecc.py:269-369)

`Generator.__init__` stores `tmap` / `tfmt` as ordered maps from opcode to
the list of alternative texts produced by splitting the `.map` / `.fmt`
directive bodies on `|`; the embedding takes those two tables as given.
`Generator._generate` is embedded as the fuelled machine `genRun` below;
fuel only models the call/loop depth and exhausting it is reported as
`GenErr.fuel`, which the Python function never produces. -/

/-- Keys of the generation symbol table: symbol names, or the anonymous
`uuid.uuid4()` keys of ecc.py:348.  A uuid key is never looked up again
and can never equal a string name, so all anonymous keys are collapsed
into one constructor — no observable behaviour depends on them. -/
inductive SymKey where
  | name : String → SymKey
  | anon : SymKey
deriving DecidableEq, Repr

/-- The generation symbol table (`syms`), insertion-ordered; new bindings
are appended, mirroring Python dict assignment of a fresh key. -/
abbrev Syms := List (SymKey × String)

/-- `name in syms` / `syms[name]` for a string name. -/
def lookupName (n : String) (syms : Syms) : Option String :=
  (syms.find? fun e => e.1 == SymKey.name n).map (·.2)

/-- `\w` (on the ASCII range the grammars use). -/
def isWordChar (c : Char) : Bool := c.isAlphanum || c == '_'

/-- `[&*#]`. -/
def isSigil (c : Char) : Bool := c == '&' || c == '*' || c == '#'

/-- Maximal word run and the rest. -/
def takeWord (s : List Char) : List Char × List Char :=
  (s.takeWhile isWordChar, s.dropWhile isWordChar)

/-- Maximal whitespace run and the rest. -/
def takeWs (s : List Char) : List Char × List Char :=
  (s.takeWhile Char.isWhitespace, s.dropWhile Char.isWhitespace)

/-- The groupdict of a successful `re.match(INS, expr)`:
`{'opc': …, 'tgt': …, 'src': …}` with `None` for absent groups. -/
structure Ins where
  opc : String
  tgt : Option String
  src : Option String
deriving DecidableEq, Repr

/-- Parse `[&*#]\w+` at the head of `s` (the operand token of `INS`). -/
def parseOperandTok (s : List Char) : Option (String × List Char) :=
  match s with
  | [] => none
  | c :: rest =>
    if isSigil c then
      match takeWord rest with
      | ([], _) => none
      | (w, rest') => some (String.mk (c :: w), rest')
    else none

/-- Embeds `re.match(INS, expr)` (ecc.py:29) followed by `.groupdict()`:
the pattern
`(?P<opc>[&*#]?\w+)(?:\s+(?P<tgt>[&*#]\w+))?\s*(?:,\s*(?P<src>[&*#]\w+))?`.
The pattern is deterministic on any text: the optional groups fail
without consuming (their leading `\s+` / `,` cannot overlap the
alternatives), so no general backtracking is needed.  `none` models a
failed match, on which the Python crashes calling `.groupdict()`. -/
def insParse (expr : String) : Option Ins :=
  let s := expr.data
  let opcRes : Option (String × List Char) :=
    match s with
    | [] => none
    | c :: rest =>
      if isSigil c then
        match takeWord rest with
        | ([], _) => none
        | (w, rest') => some (String.mk (c :: w), rest')
      else
        match takeWord s with
        | ([], _) => none
        | (w, rest') => some (String.mk w, rest')
  match opcRes with
  | none => none
  | some (opc, r1) =>
    let ws1 := takeWs r1
    let tgtRes : Option (String × List Char) :=
      if ws1.1.isEmpty then none else parseOperandTok ws1.2
    let afterTgt : Option String × List Char :=
      match tgtRes with
      | some (t, r) => (some t, r)
      | none => (none, r1)
    let r4 := (takeWs afterTgt.2).2
    let srcTok : Option String :=
      match r4 with
      | ',' :: r5 => (parseOperandTok (takeWs r5).2).map (·.1)
      | _ => none
    some { opc := opc, tgt := afterTgt.1, src := srcTok }

/-- Generator errors: the two typed errors of ecc.py (`unmapped`,
`undeclared`) plus constructors for the untyped Python exceptions the
code can raise, and `fuel` for exhausted fuel. -/
inductive GenErr where
  | fuel
  | unmapped (opc : String)
  | undeclared (name : String)
  | keyErr (k : String)
  | idxErr
  | badIns (expr : String)
  | strNode
  | nonDictArgs
  | typeErr
deriving DecidableEq, Repr

/-- Abbreviated `str()` of a Python value, used only when a list-valued
operand contributes `f"{args[opr][0]}{opr}"` to the signature
(ecc.py:336).  A string is itself; the `str()` of a dict or list begins
with a brace or bracket, and its only consumer is the equality test
against operands parsed from `INS` (shape `[&*#]\w+`), which such a
string can never equal — the abbreviation is observationally equivalent
there. -/
def pyStrHead : Tree → String
  | .str s => s
  | .dict _ => "\x7b"
  | .list _ => "["

/-- Build one signature slot (ecc.py:333-336): absent operand is `None`;
a dict operand contributes `&<opr>`; otherwise the first character (for
an atom) or first element (for a list) is prepended to the operand name.
An empty atom or list raises `IndexError` (`args[opr][0]`). -/
def opdSig (args : List (String × Tree)) (opr : String) :
    Except GenErr (Option String) :=
  match List.lookup opr args with
  | none => .ok none
  | some (.dict _) => .ok (some ("&" ++ opr))
  | some (.str s) =>
    match s.data with
    | [] => .error .idxErr
    | c :: _ => .ok (some (String.mk [c] ++ opr))
  | some (.list vs) =>
    match vs with
    | [] => .error .idxErr
    | v :: _ => .ok (some (pyStrHead v ++ opr))

/-- The variant search of ecc.py:338-340: first alternative whose parsed
`INS` groupdict equals the signature; a non-matching `INS` parse crashes
(`badIns`); exhaustion raises the `unmapped` error of line 340. -/
def findVarA (sig : Ins) : List String → Nat → Except GenErr Nat
  | [], _ => .error (.unmapped sig.opc)
  | expr :: rest, i =>
    match insParse expr with
    | none => .error (.badIns expr)
    | some parsed => if parsed = sig then .ok i else findVarA sig rest (i + 1)

/-- `tbl[opc][var]` with Python's `KeyError` / `IndexError`. -/
def getAlt (tbl : List (String × List String)) (opc : String) (var : Nat) :
    Except GenErr String :=
  match List.lookup opc tbl with
  | none => .error (.keyErr opc)
  | some alts =>
    match alts.get? var with
    | none => .error .idxErr
    | some a => .ok a

/-- The pending work of `Generator._generate`: the loop over the ir items
of one frame (`elems`, ecc.py:327), the loop over the instruction entries
of one dict item (`entries`, ecc.py:331), and the operand loop over one
matched format template (`oprs`, ecc.py:343), carrying the current
template text. -/
inductive GJob where
  | elems : List Tree → GJob
  | entries : List (String × Tree) → GJob
  | oprs : String → List (String × Tree) → GJob

/-- `Generator._generate` (ecc.py:316-369) as a fuelled machine.  The
result triple is the frame's produced text together with the frame-local
`syms` and `ofs` after the job (for `oprs` jobs the text component is
the current template).  A recursive `self._generate(…, syms, ofs)` call
starts a child frame: the child receives the parent's current `syms` and
`ofs`, and only the child's text is used afterwards — the child's final
`syms`/`ofs` are its own locals (the Python child mutates a copy of the
dict and rebinds a local `ofs`). -/
def genRun (tm tf : List (String × List String)) :
    Nat → GJob → Syms → Int → Except GenErr (String × Syms × Int)
  | 0, _, _, _ => .error .fuel
  | _ + 1, .elems [], syms, ofs => .ok ("", syms, ofs)
  | f + 1, .elems (v :: rest), syms, ofs =>
    match v with
    | .list vs => do
      let child ← genRun tm tf f (.elems vs) syms ofs
      let r ← genRun tm tf f (.elems rest) syms ofs
      .ok (child.1 ++ r.1, r.2)
    | .str _ => .error .strNode
    | .dict l => do
      let n ← genRun tm tf f (.entries l) syms ofs
      let r ← genRun tm tf f (.elems rest) n.2.1 n.2.2
      .ok (n.1 ++ r.1, r.2)
  | _ + 1, .entries [], syms, ofs => .ok ("", syms, ofs)
  | f + 1, .entries ((opc, args) :: rest), syms, ofs =>
    match args with
    | .dict argl => do
      let sigT ← opdSig argl "tgt"
      let sigS ← opdSig argl "src"
      let alts ← match List.lookup opc tm with
        | none => .error (.keyErr opc)
        | some a => .ok a
      let var ← findVarA { opc := opc, tgt := sigT, src := sigS } alts 0
      let fmt ← getAlt tf opc var
      let o ← genRun tm tf f (.oprs fmt (argl.filter fun e => e.1 != "opc")) syms ofs
      let r ← genRun tm tf f (.entries rest) o.2.1 o.2.2
      .ok (decodeEscS o.1 ++ r.1, r.2)
    | _ => .error .nonDictArgs
  | _ + 1, .oprs fmt [], syms, ofs => .ok (fmt, syms, ofs)
  | f + 1, .oprs fmt ((opr, val) :: rest), syms, ofs =>
    match val with
    | .dict l => do
      let child ← genRun tm tf f (.elems [.dict l]) syms ofs
      let fmt1 := replaceAllS ("&" ++ opr) child.1 fmt
      if hasSubS ("!" ++ opr) fmt1 then
        let ofs' := ofs + 2
        let syms' := syms ++ [(SymKey.anon, toString ofs')]
        genRun tm tf f (.oprs (replaceAllS ("!" ++ opr) (toString ofs') fmt1) rest) syms' ofs'
      else
        genRun tm tf f (.oprs fmt1 rest) syms ofs
    | .str s =>
      match s.data with
      | [] => .error .idxErr
      | '#' :: valRest =>
        genRun tm tf f (.oprs (replaceAllS ("$" ++ opr) (String.mk valRest) fmt) rest) syms ofs
      | '*' :: nameCs =>
        let name := String.mk nameCs
        let decl := hasSubS ("!" ++ opr) fmt
        let st1 : Syms × Int :=
          if decl && (lookupName name syms).isNone then
            (syms ++ [(SymKey.name name, toString (ofs + 2))], ofs + 2)
          else (syms, ofs)
        let fmt1 := if decl then replaceAllS ("!" ++ opr) ("&" ++ opr) fmt else fmt
        if hasSubS ("&" ++ opr) fmt1 then
          match lookupName name st1.1 with
          | none => .error (.undeclared name)
          | some addr =>
            genRun tm tf f
              (.oprs (replaceAllS ("$" ++ opr) name (replaceAllS ("&" ++ opr) addr fmt1)) rest)
              st1.1 st1.2
        else
          genRun tm tf f (.oprs (replaceAllS ("$" ++ opr) name fmt1) rest) st1.1 st1.2
      | _ :: _ =>
        genRun tm tf f (.oprs fmt rest) syms ofs
    | .list vs =>
      match vs with
      | .str "#" :: _ => .error .typeErr
      | .str "*" :: _ => .error .typeErr
      | _ => genRun tm tf f (.oprs fmt rest) syms ofs

/-- The dispatch at the head of `Generator._generate` (ecc.py:327): a
list frame iterates its elements, any other value is processed as the
one-element list `[ir]`. -/
def genFrame (tm tf : List (String × List String)) (fuel : Nat) (ir : Tree)
    (syms : Syms) (ofs : Int) : Except GenErr (String × Syms × Int) :=
  match ir with
  | .list vs => genRun tm tf fuel (.elems vs) syms ofs
  | v => genRun tm tf fuel (.elems [v]) syms ofs

/-- `Generator.generate` up to post-processing: the top frame starts with
an empty symbol table and `ofs = -2` (the defaults of ecc.py:316), and
only the produced text is returned.  `Generator._postprocess`
(ecc.py:371-385) applies the target grammar's regex deletions and
substitutions afterwards and is outside the embedded fragment. -/
def generateCode (tm tf : List (String × List String)) (fuel : Nat)
    (ir : Tree) : Except GenErr String :=
  (genFrame tm tf fuel ir [] (-2)).map (·.1)

/-! ## A small target grammar for the generator theorems

The tables a `Generator` holds after loading the target grammar
`.map decl ::= decl *tgt  .fmt decl ::= !tgt
 .map use  ::= use *tgt   .fmt use  ::= &tgt
 .map wrap ::= wrap &tgt  .fmt wrap ::= [&tgt]
 .map lit  ::= lit #tgt   .fmt lit  ::= \\t`
(the `lit` template is the two-character escape `\\` followed by `t`,
i.e. a literal backslash and a `t` after decoding). -/

def gtMap : List (String × List String) :=
  [("decl", ["decl *tgt"]), ("use", ["use *tgt"]),
   ("wrap", ["wrap &tgt"]), ("lit", ["lit #tgt"])]

def gtFmt : List (String × List String) :=
  [("decl", ["!tgt"]), ("use", ["&tgt"]),
   ("wrap", ["[&tgt]"]), ("lit", ["\\\\t"])]

/-- The IR node `{'decl': {'tgt': '*<n>'}}` — declares symbol `n`. -/
def declNode (n : String) : Tree := .dict [("decl", .dict [("tgt", .str ("*" ++ n))])]

/-- The IR node `{'use': {'tgt': '*<n>'}}` — dereferences symbol `n`. -/
def useNode (n : String) : Tree := .dict [("use", .dict [("tgt", .str ("*" ++ n))])]

/-- The IR node `{'lit': {'tgt': '#x'}}` — renders the `lit` template. -/
def litNode : Tree := .dict [("lit", .dict [("tgt", .str "#x")])]

/-- The IR node `{'wrap': {'tgt': v}}` with a nested-IR operand. -/
def wrapNode (v : Tree) : Tree := .dict [("wrap", .dict [("tgt", v)])]

/-! ### Helper lemmas about the string utilities and the symbol table -/

theorem replaceAllA_nil (pat repl : List Char) (f : Nat) :
    replaceAllA pat repl f [] = [] := by
  cases f <;> rfl

theorem replaceAll_of_not_hasSub (pat repl : List Char) :
    ∀ (f : Nat) (s : List Char), hasSub pat s = false →
      replaceAllA pat repl f s = s := by
  intro f
  induction f with
  | zero => intro s _; rfl
  | succ f ih =>
    intro s h
    match s with
    | [] => rfl
    | c :: rest =>
      rw [hasSub] at h
      simp only [Bool.or_eq_false_iff] at h
      simp [replaceAllA, h.1, ih rest h.2]

theorem lookupName_append_self (n : String) (syms : Syms) (v : String)
    (h : lookupName n syms = none) :
    lookupName n (syms ++ [(SymKey.name n, v)]) = some v := by
  induction syms with
  | nil => simp [lookupName, List.find?]
  | cons e t ih =>
    unfold lookupName at *
    cases he : (e.1 == SymKey.name n) with
    | true => simp [List.find?, he] at h
    | false =>
      simp only [List.cons_append, List.find?, he] at *
      exact ih h

theorem replaceAllS_amp_whole (a : String) : replaceAllS "&tgt" a "&tgt" = a := by
  obtain ⟨acs⟩ := a
  show String.mk (replaceAllA "&tgt".data acs 4 "&tgt".data) = String.mk acs
  have h : replaceAllA "&tgt".data acs 4 "&tgt".data = acs ++ [] := rfl
  rw [h, List.append_nil]

theorem lookupName_append_ne (m n : String) (syms : Syms) (v : String)
    (hne : m ≠ n) :
    lookupName m (syms ++ [(SymKey.name n, v)]) = lookupName m syms := by
  induction syms with
  | nil =>
    simp only [List.nil_append, lookupName, List.find?]
    have : (SymKey.name n == SymKey.name m) = false := by
      simp [Ne.symm hne]
    simp [this]
  | cons e t ih =>
    unfold lookupName at *
    cases he : (e.1 == SymKey.name m) with
    | true => simp [List.find?, he]
    | false =>
      simp only [List.cons_append, List.find?, he]
      exact ih

/-- Processing the `decl` template `!tgt` against the symbol operand
`*<n>` with `n` unbound (ecc.py:354-365): `n` is bound to the address
`str(ofs + 2)`, the declaration site collapses to a use site and then to
the address, and the trailing `$tgt` substitution is applied to it. -/
theorem gen_decl_oprs (f : Nat) (n : String) (syms : Syms) (ofs : Int)
    (hfresh : lookupName n syms = none) :
    genRun gtMap gtFmt (f + 2) (.oprs "!tgt" [("tgt", .str ("*" ++ n))]) syms ofs =
      .ok (replaceAllS "$tgt" n (toString (ofs + 2)),
           syms ++ [(SymKey.name n, toString (ofs + 2))], ofs + 2) := by
  obtain ⟨ncs⟩ := n
  have hstar : ("*" ++ String.mk ncs) = String.mk ('*' :: ncs) := rfl
  have hlook := lookupName_append_self (String.mk ncs) syms (toString (ofs + 2)) hfresh
  rw [hstar]
  simp only [genRun]
  have h1 : hasSubS "!tgt" "!tgt" = true := rfl
  have h3 : replaceAllS "!tgt" "&tgt" "!tgt" = "&tgt" := rfl
  have h2 : hasSubS "&tgt" "&tgt" = true := rfl
  simp [h1, h3, h2, hfresh, hlook, replaceAllS_amp_whole]

theorem exbind_ok {ε α β : Type} (a : α) (g : α → Except ε β) :
    (Except.ok a : Except ε α) >>= g = g a := rfl

theorem exbind_err {ε α β : Type} (e : ε) (g : α → Except ε β) :
    (Except.error e : Except ε α) >>= g = Except.error e := rfl

theorem exmap_ok {ε α β : Type} (a : α) (g : α → β) :
    (Except.ok a : Except ε α).map g = Except.ok (g a) := rfl

theorem exmap_err {ε α β : Type} (e : ε) (g : α → β) :
    (Except.error e : Except ε α).map g = Except.error e := rfl

/-- Processing one `decl` node at the head of a frame's item list: the
fresh symbol is bound to `str(ofs + 2)`, the frame continues on the rest
of the list with the extended table and advanced offset, and the node's
rendered template (the address, after `$tgt` substitution and escape
decoding) is prepended to the frame's output. -/
theorem gen_decl_cons (f : Nat) (n : String) (rest : List Tree) (syms : Syms)
    (ofs : Int) (hfresh : lookupName n syms = none) :
    genRun gtMap gtFmt (f + 4) (.elems (declNode n :: rest)) syms ofs =
      (genRun gtMap gtFmt (f + 3) (.elems rest)
          (syms ++ [(SymKey.name n, toString (ofs + 2))]) (ofs + 2)).map
        (fun r => (decodeEscS (replaceAllS "$tgt" n (toString (ofs + 2))) ++ r.1, r.2)) := by
  obtain ⟨ncs⟩ := n
  have hstar : ("*" ++ String.mk ncs) = String.mk ('*' :: ncs) := rfl
  have hlook := lookupName_append_self (String.mk ncs) syms (toString (ofs + 2)) hfresh
  have h1 : hasSubS "!tgt" "!tgt" = true := rfl
  have h3 : replaceAllS "!tgt" "&tgt" "!tgt" = "&tgt" := rfl
  have h2 : hasSubS "&tgt" "&tgt" = true := rfl
  have hsigT : opdSig [("tgt", Tree.str (String.mk ('*' :: ncs)))] "tgt" =
      .ok (some "*tgt") := rfl
  have hsigS : opdSig [("tgt", Tree.str (String.mk ('*' :: ncs)))] "src" =
      .ok none := rfl
  have halts : List.lookup "decl" gtMap = some ["decl *tgt"] := rfl
  have hvar : findVarA { opc := "decl", tgt := some "*tgt", src := none }
      ["decl *tgt"] 0 = .ok 0 := rfl
  have hfmt : getAlt gtFmt "decl" 0 = .ok "!tgt" := rfl
  simp only [declNode, hstar]
  simp only [genRun]
  simp [hsigT, hsigS, halts, hvar, hfmt, h1, h3, h2, hfresh, hlook,
        replaceAllS_amp_whole, exbind_ok, exbind_err]
  cases hres : genRun gtMap gtFmt (f + 3) (.elems rest)
      (syms ++ [(SymKey.name (String.mk ncs), toString (ofs + 2))]) (ofs + 2) with
  | error e => simp [exbind_err, exmap_err]
  | ok r => simp [exbind_ok, exmap_ok]

/-- Processing one `use` node at the head of a frame's item list when the
symbol is bound: the template's use site is replaced by the bound
address, the trailing `$tgt` substitution is applied, and the symbol
table and offset are unchanged. -/
theorem gen_use_cons_ok (f : Nat) (n a : String) (rest : List Tree)
    (syms : Syms) (ofs : Int) (hbound : lookupName n syms = some a) :
    genRun gtMap gtFmt (f + 4) (.elems (useNode n :: rest)) syms ofs =
      (genRun gtMap gtFmt (f + 3) (.elems rest) syms ofs).map
        (fun r => (decodeEscS (replaceAllS "$tgt" n a) ++ r.1, r.2)) := by
  obtain ⟨ncs⟩ := n
  have hstar : ("*" ++ String.mk ncs) = String.mk ('*' :: ncs) := rfl
  have h0 : hasSubS "!tgt" "&tgt" = false := rfl
  have h2 : hasSubS "&tgt" "&tgt" = true := rfl
  have hsigT : opdSig [("tgt", Tree.str (String.mk ('*' :: ncs)))] "tgt" =
      .ok (some "*tgt") := rfl
  have hsigS : opdSig [("tgt", Tree.str (String.mk ('*' :: ncs)))] "src" =
      .ok none := rfl
  have halts : List.lookup "use" gtMap = some ["use *tgt"] := rfl
  have hvar : findVarA { opc := "use", tgt := some "*tgt", src := none }
      ["use *tgt"] 0 = .ok 0 := rfl
  have hfmt : getAlt gtFmt "use" 0 = .ok "&tgt" := rfl
  simp only [useNode, hstar]
  simp only [genRun]
  simp [hsigT, hsigS, halts, hvar, hfmt, h0, h2, hbound,
        replaceAllS_amp_whole, exbind_ok, exbind_err]
  cases hres : genRun gtMap gtFmt (f + 3) (.elems rest) syms ofs with
  | error e => simp [exbind_err, exmap_err]
  | ok r => simp [exbind_ok, exmap_ok]

/-- Processing one `use` node whose symbol is unbound fails with the
undeclared-symbol error of ecc.py:362, aborting the whole generation. -/
theorem gen_use_cons_err (f : Nat) (n : String) (rest : List Tree)
    (syms : Syms) (ofs : Int) (hnone : lookupName n syms = none) :
    genRun gtMap gtFmt (f + 4) (.elems (useNode n :: rest)) syms ofs =
      .error (.undeclared n) := by
  obtain ⟨ncs⟩ := n
  have hstar : ("*" ++ String.mk ncs) = String.mk ('*' :: ncs) := rfl
  have h0 : hasSubS "!tgt" "&tgt" = false := rfl
  have h2 : hasSubS "&tgt" "&tgt" = true := rfl
  have hsigT : opdSig [("tgt", Tree.str (String.mk ('*' :: ncs)))] "tgt" =
      .ok (some "*tgt") := rfl
  have hsigS : opdSig [("tgt", Tree.str (String.mk ('*' :: ncs)))] "src" =
      .ok none := rfl
  have halts : List.lookup "use" gtMap = some ["use *tgt"] := rfl
  have hvar : findVarA { opc := "use", tgt := some "*tgt", src := none }
      ["use *tgt"] 0 = .ok 0 := rfl
  have hfmt : getAlt gtFmt "use" 0 = .ok "&tgt" := rfl
  simp only [useNode, hstar]
  simp only [genRun]
  simp [hsigT, hsigS, halts, hvar, hfmt, h0, h2, hnone, exbind_ok, exbind_err]

theorem exmap_map {ε α β γ : Type} (r : Except ε α) (g : α → β) (h : β → γ) :
    (r.map g).map h = r.map (fun x => h (g x)) := by
  cases r <;> rfl

theorem exmap_congr {ε α β : Type} (r : Except ε α) (g h : α → β)
    (hg : ∀ x, g x = h x) : r.map g = r.map h := by
  cases r <;> simp [Except.map, hg]

theorem gen_elems_nil (tm tf : List (String × List String)) (f : Nat)
    (syms : Syms) (ofs : Int) :
    genRun tm tf (f + 1) (.elems []) syms ofs = .ok ("", syms, ofs) := rfl

/-- C2 counterexample: on the IR `[[{'decl': {'tgt': '*y'}}],
{'decl': {'tgt': '*x'}}]` the first newly declared symbol (`y`, declared
inside the nested list's recursive frame) receives address `0`, and the
second newly declared symbol (`x`, declared by the top frame) also
receives address `0` — not `2` as the claim requires for k = 2 — because
the offset advance made in the child frame is not propagated back. -/
theorem c2_counterexample :
    genRun gtMap gtFmt 20 (.elems [.list [declNode "y"], declNode "x"]) [] (-2) =
      .ok ("00", [(SymKey.name "x", "0")], 0) ∧
    ("0" : String) ≠ "2" := ⟨rfl, by decide⟩

/-- The symbol table produced by declaring the given fresh names in
order, starting from offset `ofs`: the k-th name is bound to
`str(ofs + 2k)`. -/
def expectedDecls : List String → Int → Syms
  | [], _ => []
  | n :: t, ofs => (SymKey.name n, toString (ofs + 2)) :: expectedDecls t (ofs + 2)

/-- C2 (amended): address allocation is per generation frame.  Within a
single frame the k-th symbol newly declared by that frame receives
address `ofs₀ + 2k` where `ofs₀` is the frame's starting offset — so in
the top-level frame of a `generate` call (`ofs₀ = -2`) the k-th newly
declared symbol receives `2k - 2`; but offset advances made inside
nested recursive frames are not propagated to the parent, so addresses
repeat across frames (second conjunct: the concrete IR of the
counterexample, where the child frame's `y` and the parent frame's `x`
both receive address `0`). -/
theorem c2_frame_local_addresses :
    (∀ (names : List String) (f : Nat) (syms : Syms) (ofs : Int),
      names.Nodup → (∀ n ∈ names, lookupName n syms = none) →
      (genRun gtMap gtFmt (names.length + (f + 4)) (.elems (names.map declNode))
          syms ofs).map (fun r => (r.2.1, r.2.2)) =
        .ok (syms ++ expectedDecls names ofs, ofs + 2 * names.length)) ∧
    genRun gtMap gtFmt 20 (.elems [.list [declNode "y"], declNode "x"]) [] (-2) =
      .ok ("00", [(SymKey.name "x", "0")], 0) := by
  constructor
  · intro names
    induction names with
    | nil =>
      intro f syms ofs _ _
      simp [gen_elems_nil, exmap_ok, expectedDecls]
    | cons n t ih =>
      intro f syms ofs hnd hfresh
      have hfe : (n :: t).length + (f + 4) = (t.length + (f + 1)) + 4 := by
        simp [List.length_cons]; omega
      rw [List.map_cons, hfe,
          gen_decl_cons (t.length + (f + 1)) n (t.map declNode) syms ofs
            (hfresh n (by simp))]
      have hfe2 : (t.length + (f + 1)) + 3 = t.length + (f + 4) := by omega
      rw [exmap_map, hfe2]
      have hfresh2 : ∀ m ∈ t, lookupName m (syms ++ [(SymKey.name n, toString (ofs + 2))]) = none := by
        intro m hm
        rw [lookupName_append_ne m n syms _ (by rintro rfl; exact (List.nodup_cons.mp hnd).1 hm)]
        exact hfresh m (by simp [hm])
      have := ih (f) (syms ++ [(SymKey.name n, toString (ofs + 2))]) (ofs + 2)
        (List.nodup_cons.mp hnd).2 hfresh2
      cases hres : genRun gtMap gtFmt (t.length + (f + 4)) (.elems (t.map declNode))
          (syms ++ [(SymKey.name n, toString (ofs + 2))]) (ofs + 2) with
      | error e => rw [hres] at this; simp [exmap_err] at this
      | ok r =>
        rw [hres] at this
        simp only [exmap_ok, Except.ok.injEq] at this
        simp only [exmap_ok, Except.ok.injEq]
        rw [this, expectedDecls, Prod.mk.injEq]
        constructor
        · simp [List.append_assoc]
        · simp only [List.length_cons]
          push_cast
          ring
  · exact rfl

/-- The target tables of a one-opcode grammar `.map use ::= use *tgt`
whose format template `T` is arbitrary — used to state C5 for every
template. -/
def c5map : List (String × List String) := [("use", ["use *tgt"])]

/-- See `c5map`. -/
def c5fmt (T : String) : List (String × List String) := [("use", [T])]

/-- C5: for a `*`-symbol operand whose selected template contains a use
site `&tgt` and no declaration site `!tgt`, generation fails with the
undeclared-symbol error when the name is unbound in the current symbol
table (stated for the whole node: the error aborts generation before any
emission); and when the name is bound, the operand-processing step
(ecc.py:354-365) maps the template to the text in which every `&tgt`
occurrence is substituted with the symbol's address string (followed by
the unconditional `$tgt` substitution of line 365), leaving the table
and offset unchanged.  The substituted template is subsequently
escape-decoded and emitted (ecc.py:367-368); that decoding step is the
subject of the C9 theorems and not of this claim. -/
theorem c5_use_site_resolution (T n : String) (syms : Syms) (ofs : Int) (f : Nat)
    (hnoDecl : hasSubS "!tgt" T = false) (hUse : hasSubS "&tgt" T = true) :
    (lookupName n syms = none →
      genRun c5map (c5fmt T) (f + 4) (.elems [useNode n]) syms ofs =
        .error (.undeclared n)) ∧
    (∀ a, lookupName n syms = some a →
      genRun c5map (c5fmt T) (f + 2) (.oprs T [("tgt", Tree.str ("*" ++ n))]) syms ofs =
        .ok (replaceAllS "$tgt" n (replaceAllS "&tgt" a T), syms, ofs)) := by
  obtain ⟨ncs⟩ := n
  have hstar : ("*" ++ String.mk ncs) = String.mk ('*' :: ncs) := rfl
  have hsigT : opdSig [("tgt", Tree.str (String.mk ('*' :: ncs)))] "tgt" =
      .ok (some "*tgt") := rfl
  have hsigS : opdSig [("tgt", Tree.str (String.mk ('*' :: ncs)))] "src" =
      .ok none := rfl
  have halts : List.lookup "use" c5map = some ["use *tgt"] := rfl
  have hvar : findVarA { opc := "use", tgt := some "*tgt", src := none }
      ["use *tgt"] 0 = .ok 0 := rfl
  have hfmt : getAlt (c5fmt T) "use" 0 = .ok T := rfl
  constructor
  · intro hnone
    simp only [useNode, hstar]
    simp only [genRun]
    simp [hsigT, hsigS, halts, hvar, hfmt, hnoDecl, hUse, hnone,
          exbind_ok, exbind_err]
  · intro a hbound
    rw [hstar]
    simp only [genRun]
    simp [hnoDecl, hUse, hbound]

/-- Witness for C5 at the template `&tgt`, name `x`: unbound in the empty
table (undeclared error), bound to `"0"` in a one-entry table (the use
site is substituted with the address `0`). -/
theorem c5_use_site_resolution_witness :
    (hasSubS "!tgt" "&tgt" = false) ∧ (hasSubS "&tgt" "&tgt" = true) ∧
    genRun c5map (c5fmt "&tgt") 4 (.elems [useNode "x"]) [] (-2) =
      .error (.undeclared "x") ∧
    genRun c5map (c5fmt "&tgt") 2 (.oprs "&tgt" [("tgt", Tree.str "*x")])
      [(SymKey.name "x", "0")] (-2) =
      .ok ("0", [(SymKey.name "x", "0")], -2) := by
  refine ⟨rfl, rfl, ?_, ?_⟩
  · exact (c5_use_site_resolution "&tgt" "x" [] (-2) 0 rfl rfl).1 rfl
  · exact (c5_use_site_resolution "&tgt" "x" [(SymKey.name "x", "0")] (-2) 0
      rfl rfl).2 "0" rfl

theorem gen_elems_cons_list (tm tf : List (String × List String)) (f : Nat)
    (vs rest : List Tree) (syms : Syms) (ofs : Int) :
    genRun tm tf (f + 1) (.elems (.list vs :: rest)) syms ofs =
      (do
        let child ← genRun tm tf f (.elems vs) syms ofs
        let r ← genRun tm tf f (.elems rest) syms ofs
        Except.ok (child.1 ++ r.1, r.2)) := rfl

/-- C6: the generation symbol table is shadow-scoped per recursive frame.
First conjunct: a recursive frame started for a nested list sees every
binding of its parent's table at call time (a bound name dereferences to
its address inside the child).  Second conjunct: a binding added inside
a child frame does not leak back — after the child frame declares `n`,
the parent frame's own dereference of `n` still fails with the
undeclared-symbol error, and the parent's table is the one from before
the child ran. -/
theorem c6_shadow_scoped (n : String) (syms : Syms) (ofs : Int) (f : Nat) :
    (∀ a, lookupName n syms = some a →
      genRun gtMap gtFmt (f + 5) (.elems [.list [useNode n]]) syms ofs =
        .ok (decodeEscS (replaceAllS "$tgt" n a), syms, ofs)) ∧
    (lookupName n syms = none →
      genRun gtMap gtFmt (f + 6) (.elems [.list [declNode n], useNode n]) syms ofs =
        .error (.undeclared n)) := by
  constructor
  · intro a hbound
    have e1 : f + 5 = (f + 4) + 1 := rfl
    rw [e1, gen_elems_cons_list gtMap gtFmt (f + 4) [useNode n] [] syms ofs,
        gen_use_cons_ok f n a [] syms ofs hbound]
    simp [gen_elems_nil, exmap_ok, exbind_ok]
  · intro hfresh
    have e1 : f + 6 = ((f + 1) + 4) + 1 := rfl
    rw [e1, gen_elems_cons_list gtMap gtFmt ((f + 1) + 4) [declNode n] [useNode n] syms ofs,
        gen_decl_cons (f + 1) n [] syms ofs hfresh,
        gen_use_cons_err (f + 1) n [] syms ofs hfresh]
    simp [gen_elems_nil, exmap_ok, exbind_ok, exbind_err]

/-- Witness for C6 with `n = "z"`: bound to `"6"` in the parent table the
child dereferences it; unbound, a child-frame declaration does not leak
to the parent. -/
theorem c6_shadow_scoped_witness :
    lookupName "z" [(SymKey.name "z", "6")] = some "6" ∧
    genRun gtMap gtFmt 5 (.elems [.list [useNode "z"]])
      [(SymKey.name "z", "6")] 4 = .ok ("6", [(SymKey.name "z", "6")], 4) ∧
    lookupName "z" ([] : Syms) = none ∧
    genRun gtMap gtFmt 6 (.elems [.list [declNode "z"], useNode "z"]) [] (-2) =
      .error (.undeclared "z") := by
  refine ⟨rfl, ?_, rfl, ?_⟩
  · exact (c6_shadow_scoped "z" [(SymKey.name "z", "6")] 4 0).1 "6" rfl
  · exact (c6_shadow_scoped "z" [] (-2) 0).2 rfl

theorem gen_entries_nil (tm tf : List (String × List String)) (f : Nat)
    (syms : Syms) (ofs : Int) :
    genRun tm tf (f + 1) (.entries []) syms ofs = .ok ("", syms, ofs) := rfl

theorem gen_oprs_nil (tm tf : List (String × List String)) (f : Nat)
    (fmtS : String) (syms : Syms) (ofs : Int) :
    genRun tm tf (f + 1) (.oprs fmtS []) syms ofs = .ok (fmtS, syms, ofs) := rfl

theorem gen_elems_cons_dict (tm tf : List (String × List String)) (f : Nat)
    (l : List (String × Tree)) (rest : List Tree) (syms : Syms) (ofs : Int) :
    genRun tm tf (f + 1) (.elems (.dict l :: rest)) syms ofs =
      (do
        let n ← genRun tm tf f (.entries l) syms ofs
        let r ← genRun tm tf f (.elems rest) n.2.1 n.2.2
        Except.ok (n.1 ++ r.1, r.2)) := rfl

theorem gen_entries_cons_dict (tm tf : List (String × List String)) (f : Nat)
    (opc : String) (argl : List (String × Tree)) (rest : List (String × Tree))
    (syms : Syms) (ofs : Int) :
    genRun tm tf (f + 1) (.entries ((opc, Tree.dict argl) :: rest)) syms ofs =
      (do
        let sigT ← opdSig argl "tgt"
        let sigS ← opdSig argl "src"
        let alts ← match List.lookup opc tm with
          | none => Except.error (GenErr.keyErr opc)
          | some a => Except.ok a
        let var ← findVarA { opc := opc, tgt := sigT, src := sigS } alts 0
        let fmt ← getAlt tf opc var
        let o ← genRun tm tf f (.oprs fmt (argl.filter fun e => e.1 != "opc")) syms ofs
        let r ← genRun tm tf f (.entries rest) o.2.1 o.2.2
        Except.ok (decodeEscS o.1 ++ r.1, r.2)) := rfl

theorem gen_oprs_cons_dict (tm tf : List (String × List String)) (f : Nat)
    (fmtS : String) (opr : String) (l : List (String × Tree))
    (rest : List (String × Tree)) (syms : Syms) (ofs : Int) :
    genRun tm tf (f + 1) (.oprs fmtS ((opr, Tree.dict l) :: rest)) syms ofs =
      (do
        let child ← genRun tm tf f (.elems [.dict l]) syms ofs
        let fmt1 := replaceAllS ("&" ++ opr) child.1 fmtS
        if hasSubS ("!" ++ opr) fmt1 then
          let ofs' := ofs + 2
          let syms' := syms ++ [(SymKey.anon, toString ofs')]
          genRun tm tf f (.oprs (replaceAllS ("!" ++ opr) (toString ofs') fmt1) rest) syms' ofs'
        else
          genRun tm tf f (.oprs fmt1 rest) syms ofs) := rfl

theorem replaceAllS_brk (s : String) :
    replaceAllS "&tgt" s "[&tgt]" = "[" ++ s ++ "]" := by
  obtain ⟨cs⟩ := s
  show String.mk (replaceAllA "&tgt".data cs 6 "[&tgt]".data) = _
  have h : replaceAllA "&tgt".data cs 6 "[&tgt]".data = '[' :: (cs ++ [']']) := rfl
  rw [h]
  rfl

/-- C9 counterexample: rendering `{'lit': {'tgt': '#x'}}` alone emits the
two characters backslash and `t` (the template `\\t` decoded once); but
nesting it as the `&tgt` operand of `{'wrap': …}` (template `[&tgt]`)
emits `[` TAB `]` — the backslash inside the substituted nested fragment
is decoded a second time by the enclosing template's decoding step
instead of being preserved. -/
theorem c9_counterexample :
    (genRun gtMap gtFmt 8 (.elems [litNode]) [] (-2)).map (fun r => r.1) =
      .ok "\\t" ∧
    (genRun gtMap gtFmt 8 (.elems [wrapNode litNode]) [] (-2)).map (fun r => r.1) =
      .ok "[\t]" ∧
    '\\' ∈ "\\t".data ∧ '\\' ∉ "[\t]".data := ⟨rfl, rfl, by decide, by decide⟩

/-- C9 (amended): escape decoding runs once per rendered instruction
template, after substitution — so a fragment generated for a nested IR
operand, already decoded by its own frame, is decoded again as part of
the enclosing template: for the `wrap` template `[&tgt]`, if the nested
operand generates `s`, the emitted text is
`decode("[" ++ s ++ "]")`, not `"[" ++ s ++ "]"`. -/
theorem c9_escape_decode_per_template (l : List (String × Tree)) (syms : Syms)
    (ofs : Int) (f : Nat) (s : String) (syms2 : Syms) (ofs2 : Int)
    (hchild : genRun gtMap gtFmt (f + 1) (.elems [.dict l]) syms ofs =
      .ok (s, syms2, ofs2))
    (hnb : hasSubS "!tgt" ("[" ++ s ++ "]") = false) :
    genRun gtMap gtFmt (f + 4) (.elems [wrapNode (.dict l)]) syms ofs =
      .ok (decodeEscS ("[" ++ s ++ "]"), syms, ofs) := by
  have hsigT : opdSig [("tgt", Tree.dict l)] "tgt" = .ok (some "&tgt") := rfl
  have hsigS : opdSig [("tgt", Tree.dict l)] "src" = .ok none := rfl
  have halts : List.lookup "wrap" gtMap = some ["wrap &tgt"] := rfl
  have hvar : findVarA { opc := "wrap", tgt := some "&tgt", src := none }
      ["wrap &tgt"] 0 = .ok 0 := rfl
  have hfmt : getAlt gtFmt "wrap" 0 = .ok "[&tgt]" := rfl
  have hfil : [("tgt", Tree.dict l)].filter (fun e => e.1 != "opc") =
      [("tgt", Tree.dict l)] := rfl
  have e1 : f + 4 = (f + 3) + 1 := rfl
  have e2 : f + 3 = (f + 2) + 1 := rfl
  have e3 : f + 2 = (f + 1) + 1 := rfl
  rw [wrapNode, e1,
      gen_elems_cons_dict gtMap gtFmt (f + 3)
        [("wrap", Tree.dict [("tgt", Tree.dict l)])] [] syms ofs,
      e2, gen_entries_cons_dict gtMap gtFmt (f + 2) "wrap"
        [("tgt", Tree.dict l)] [] syms ofs]
  simp only [hsigT, hsigS, halts, exbind_ok]
  simp only [hvar, hfmt, hfil, exbind_ok]
  rw [e3, gen_oprs_cons_dict gtMap gtFmt (f + 1) "[&tgt]" "tgt" l [] syms ofs,
      hchild]
  simp [exbind_ok, replaceAllS_brk, hnb, gen_oprs_nil, gen_entries_nil,
        gen_elems_nil, exmap_ok]

/-- Witness for C9 (amended): the nested `lit` fragment generates the two
characters backslash `t`; the enclosing `wrap` template then emits
`decode("[\t]")`, i.e. `[` TAB `]`. -/
theorem c9_escape_decode_per_template_witness :
    genRun gtMap gtFmt 5 (.elems [.dict [("lit", Tree.dict [("tgt", Tree.str "#x")])]])
      [] (-2) = .ok ("\\t", [], -2) ∧
    hasSubS "!tgt" ("[" ++ "\\t" ++ "]") = false ∧
    genRun gtMap gtFmt 8 (.elems [wrapNode (.dict [("lit", Tree.dict [("tgt", Tree.str "#x")])])])
      [] (-2) = .ok ("[\t]", [], -2) := by
  refine ⟨rfl, rfl, ?_⟩
  have h := c9_escape_decode_per_template [("lit", Tree.dict [("tgt", Tree.str "#x")])]
    [] (-2) 4 "\\t" [] (-2) rfl rfl
  exact h

/-- Witness for the amended C2 theorem: declaring `y` then `x` in the
top-level frame from the initial offset `-2` binds them to `0` and `2`. -/
theorem c2_frame_local_addresses_witness :
    ["y", "x"].Nodup ∧ (∀ n ∈ ["y", "x"], lookupName n ([] : Syms) = none) ∧
    (genRun gtMap gtFmt (["y", "x"].length + (0 + 4))
        (.elems (["y", "x"].map declNode)) [] (-2)).map
      (fun r => (r.2.1, r.2.2)) =
      .ok ([] ++ expectedDecls ["y", "x"] (-2), -2 + 2 * ["y", "x"].length) := by
  refine ⟨by decide, by decide, ?_⟩
  exact c2_frame_local_addresses.1 ["y", "x"] 0 [] (-2) (by decide) (by decide)

/-! ## Parser (`Parser._parse`, ecc.py:157-194)

The grammar regexes matched against source text are user input; they are
abstracted as a `Matcher` oracle.  Everything else — the stale-delimiter
sweep, the loop structure, the node construction and the exception
swallowing — is embedded concretely. -/

/-- The data of a successful `re.match(expr, src, re.DOTALL)`: the
matched text (`match.group(0)`; for a match anchored at position 0,
`match.end()` is its length) and the ordered `groupdict()` items, with
`none` for a named group that did not participate. -/
structure MRes where
  matched : List Char
  groups : List (String × Option (List Char))

/-- The abstract regex-match oracle. -/
abbrev Matcher := String → List Char → Option MRes

/-- Fuelled scan for the suffix identifiers `@[0-9]+<sfx>` of
`re.finditer` at ecc.py:172, left to right and non-overlapping,
returning the digit ids.  (For a suffix character that is itself a
decimal digit the regex would backtrack inside the digit run; no grammar
declares a digit delimiter and that edge is not modelled.) -/
def findSuffixIdsA (sfx : Char) : Nat → List Char → List (List Char)
  | 0, _ => []
  | _ + 1, [] => []
  | f + 1, '@' :: rest =>
    match splitDigits rest with
    | ([], _) => findSuffixIdsA sfx f rest
    | (ds, c :: r3) =>
      if c = sfx then ds :: findSuffixIdsA sfx f r3
      else findSuffixIdsA sfx f rest
    | (_, []) => []
  | f + 1, _ :: rest => findSuffixIdsA sfx f rest

/-- See `findSuffixIdsA`. -/
def findSuffixIds (sfx : Char) (s : List Char) : List (List Char) :=
  findSuffixIdsA sfx s.length s

/-- The stale-delimiter sweep for one balance pair (ecc.py:171-174): the
suffix identifiers are enumerated once from the text as it was when the
`finditer` ran; for each id whose matching `@<id><prefix>` is absent
from the current text, every `@<id><suffix>` occurrence is removed. -/
def sweepPair (p sfx : Char) (src : List Char) : List Char :=
  (findSuffixIds sfx src).foldl
    (fun cur id =>
      if hasSub ('@' :: id ++ [p]) cur then cur
      else replaceAll ('@' :: id ++ [sfx]) [] cur)
    src

/-- The sweep over all balance pairs. -/
def sweep (sbal : List (Char × Char)) (src : List Char) : List Char :=
  sbal.foldl (fun cur pr => sweepPair pr.1 pr.2 cur) src

theorem sweep_nil (src : List Char) : sweep [] src = src := rfl

/-- Parser errors: the `SyntaxError(source)` of ecc.py:193 and exhausted
fuel (a zero-length regex match makes the Python `while` loop spin
forever; fuel models that). -/
inductive PErr where
  | noMatch (rest : List Char)
  | fuel

/-- The node construction of ecc.py:178-186 for a match with named
groups, under the surrounding `try/except`: a `None` group value (the
`re.sub` on it raises `TypeError`), a missing `sfmt[_sym]` (`KeyError`)
or a failing recursive parse abandons the alternative (`none`); a group
whose text is empty after stripping `@[0-9]+` identifiers is skipped. -/
def buildGroups
    (recurse : List Char → List (String × List String) → Except PErr (List Tree))
    (sfmt : List (String × List String)) :
    List (String × Option (List Char)) → Option (List (String × Tree))
  | [] => some []
  | (gsym, gval) :: rest =>
    match gval with
    | none => none
    | some txt =>
      if (rmAtIds txt).isEmpty then
        buildGroups recurse sfmt rest
      else
        match List.lookup gsym sfmt with
        | none => none
        | some alts =>
          match recurse txt [(gsym, alts)] with
          | .error _ => none
          | .ok sub =>
            (buildGroups recurse sfmt rest).map (fun l => (gsym, Tree.list sub) :: l)

/-- The alternative loop for one symbol (ecc.py:170-190): sweep, attempt
an anchored match, build the node; on any failure fall through to the
next alternative.  The swept text persists (the Python rebinds
`source`), so the current text is returned alongside the outcome. -/
def tryAlts (M : Matcher) (sfmt : List (String × List String))
    (sbal : List (Char × Char))
    (recurse : List Char → List (String × List String) → Except PErr (List Tree))
    (sym : String) :
    List String → List Char → Option (Tree × List Char) × List Char
  | [], src => (none, src)
  | expr :: rest, src =>
    let src1 := sweep sbal src
    match M expr src1 with
    | none => tryAlts M sfmt sbal recurse sym rest src1
    | some m =>
      let node : Option Tree :=
        if m.groups.isEmpty then some (.dict [(sym, .str (String.mk m.matched))])
        else (buildGroups recurse sfmt m.groups).map
          (fun l => .dict [(sym, .dict l)])
      match node with
      | some t => (some (t, src1.drop m.matched.length), src1)
      | none => tryAlts M sfmt sbal recurse sym rest src1

/-- The symbol loop of one `while` iteration (ecc.py:169): symbols are
tried in declaration order; the first symbol with a succeeding
alternative wins. -/
def trySyms (M : Matcher) (sfmt : List (String × List String))
    (sbal : List (Char × Char))
    (recurse : List Char → List (String × List String) → Except PErr (List Tree)) :
    List (String × List String) → List Char → Option (Tree × List Char) × List Char
  | [], src => (none, src)
  | (sym, exprs) :: more, src =>
    match tryAlts M sfmt sbal recurse sym exprs src with
    | (some r, src1) => (some r, src1)
    | (none, src1) => trySyms M sfmt sbal recurse more src1

/-- `Parser._parse` (ecc.py:157-194) as a fuelled loop: while text
remains, try every targeted symbol's alternatives in declaration order;
append the first successfully built node and continue after its match;
raise `noMatch` with the final (swept) text when nothing matches. -/
def pparse (M : Matcher) (sfmt : List (String × List String))
    (sbal : List (Char × Char)) :
    Nat → List (String × List String) → List Char → Except PErr (List Tree)
  | _, _, [] => .ok []
  | 0, _, _ => .error .fuel
  | f + 1, targets, src =>
    match trySyms M sfmt sbal (fun s tg => pparse M sfmt sbal f tg s) targets src with
    | (some (t, rest), _) =>
      (pparse M sfmt sbal f targets rest).map (fun ts => t :: ts)
    | (none, src1) => .error (.noMatch src1)

/-- One alternative attempt of `Parser._parse` (ecc.py:175-187) on an
already-swept text: the anchored match, then the node construction under
the surrounding `try/except`.  `none` covers both failure modes on which
the loop falls through to the next alternative: a failed regex match
(ecc.py:175) and a swallowed exception during node construction
(ecc.py:189). -/
def altAttempt (M : Matcher) (sfmt : List (String × List String))
    (recurse : List Char → List (String × List String) → Except PErr (List Tree))
    (sym : String) (expr : String) (src : List Char) :
    Option (Tree × List Char) :=
  match M expr src with
  | none => none
  | some m =>
    match (if m.groups.isEmpty then some (Tree.dict [(sym, .str (String.mk m.matched))])
           else (buildGroups recurse sfmt m.groups).map
             (fun l => Tree.dict [(sym, .dict l)])) with
    | some t => some (t, src.drop m.matched.length)
    | none => none

/-- One step of the alternative loop, for any declared balance pairs:
the text is swept, the head alternative attempted on the swept text, and
on failure the loop continues on the tail with the swept text. -/
theorem tryAlts_step (M : Matcher) (sfmt : List (String × List String))
    (sbal : List (Char × Char))
    (recurse : List Char → List (String × List String) → Except PErr (List Tree))
    (sym expr : String) (rest : List String) (src : List Char) :
    tryAlts M sfmt sbal recurse sym (expr :: rest) src =
      match altAttempt M sfmt recurse sym expr (sweep sbal src) with
      | some r => (some r, sweep sbal src)
      | none => tryAlts M sfmt sbal recurse sym rest (sweep sbal src) := by
  cases hm : M expr (sweep sbal src) with
  | none => simp [tryAlts, altAttempt, hm]
  | some m =>
    simp only [tryAlts, altAttempt, hm]
    cases hnode : (if m.groups.isEmpty then
        some (Tree.dict [(sym, Tree.str (String.mk m.matched))])
      else (buildGroups recurse sfmt m.groups).map
        (fun l => Tree.dict [(sym, Tree.dict l)])) <;> rfl

/-- A symbol all of whose alternatives fail (with no balance pairs, so
the sweep is the identity and every attempt sees the same text) yields
no node and leaves the text unchanged. -/
theorem tryAlts_all_fail (M : Matcher) (sfmt : List (String × List String))
    (recurse : List Char → List (String × List String) → Except PErr (List Tree))
    (sym : String) :
    ∀ (exprs : List String) (src : List Char),
      (∀ e ∈ exprs, altAttempt M sfmt recurse sym e src = none) →
      tryAlts M sfmt [] recurse sym exprs src = (none, src) := by
  intro exprs
  induction exprs with
  | nil => intro src _; rfl
  | cons e rest ih =>
    intro src h
    rw [tryAlts_step, sweep_nil, h e (by simp)]
    exact ih src fun e' he' => h e' (by simp [he'])

/-- C3: alternative selection is strictly in declaration order.  First
conjunct: one step of the alternative loop, for any grammar — the head
alternative is attempted (on the swept text) before any later one, and
on failure (no anchored match, or a capture-bearing alternative whose
node construction raises and is swallowed, ecc.py:189) the loop falls
through to the tail.  Second conjunct: at a fixed position (no balance
pairs, so every attempt is anchored at the same text), whenever every
alternative before `e` fails and `e` succeeds, the parser selects `e` —
whatever the later alternatives would do.  Third conjunct: symbols are
likewise tried in declaration order, the first symbol with a succeeding
alternative winning over all later symbols.  Fourth conjunct: the
selected node is appended and parsing continues after its match. -/
theorem c3_first_alternative_wins :
    (∀ (M : Matcher) (sfmt : List (String × List String))
      (sbal : List (Char × Char))
      (recurse : List Char → List (String × List String) → Except PErr (List Tree))
      (sym expr : String) (rest : List String) (src : List Char),
      tryAlts M sfmt sbal recurse sym (expr :: rest) src =
        match altAttempt M sfmt recurse sym expr (sweep sbal src) with
        | some r => (some r, sweep sbal src)
        | none => tryAlts M sfmt sbal recurse sym rest (sweep sbal src)) ∧
    (∀ (M : Matcher) (sfmt : List (String × List String))
      (recurse : List Char → List (String × List String) → Except PErr (List Tree))
      (sym : String) (pre : List String) (e : String) (post : List String)
      (src : List Char) (r : Tree × List Char),
      (∀ e' ∈ pre, altAttempt M sfmt recurse sym e' src = none) →
      altAttempt M sfmt recurse sym e src = some r →
      tryAlts M sfmt [] recurse sym (pre ++ e :: post) src = (some r, src)) ∧
    (∀ (M : Matcher) (sfmt : List (String × List String))
      (recurse : List Char → List (String × List String) → Except PErr (List Tree))
      (preSyms : List (String × List String)) (sym : String)
      (exprs : List String) (more : List (String × List String))
      (src : List Char) (r : Tree × List Char),
      (∀ p ∈ preSyms, ∀ e ∈ p.2, altAttempt M sfmt recurse p.1 e src = none) →
      tryAlts M sfmt [] recurse sym exprs src = (some r, src) →
      trySyms M sfmt [] recurse (preSyms ++ (sym, exprs) :: more) src =
        (some r, src)) ∧
    (∀ (M : Matcher) (sfmt targets : List (String × List String))
      (src : List Char) (t : Tree) (rest : List Char) (f : Nat),
      src ≠ [] →
      trySyms M sfmt [] (fun s tg => pparse M sfmt [] f tg s) targets src =
        (some (t, rest), src) →
      pparse M sfmt [] (f + 1) targets src =
        (pparse M sfmt [] f targets rest).map (fun ts => t :: ts)) := by
  refine ⟨tryAlts_step, ?_, ?_, ?_⟩
  · intro M sfmt recurse sym pre
    induction pre with
    | nil =>
      intro e post src r _ hsucc
      rw [List.nil_append, tryAlts_step, sweep_nil, hsucc]
    | cons p pre' ih =>
      intro e post src r hfail hsucc
      rw [List.cons_append, tryAlts_step, sweep_nil, hfail p (by simp)]
      exact ih e post src r (fun e' he' => hfail e' (by simp [he'])) hsucc
  · intro M sfmt recurse preSyms
    induction preSyms with
    | nil =>
      intro sym exprs more src r _ hsel
      simp [trySyms, hsel]
    | cons p t ih =>
      intro sym exprs more src r hfail hsel
      obtain ⟨psym, pexprs⟩ := p
      have hnone := tryAlts_all_fail M sfmt recurse psym pexprs src
        (fun e he => hfail (psym, pexprs) (by simp) e he)
      simp only [List.cons_append, trySyms, hnone]
      exact ih sym exprs more src r
        (fun q hq e he => hfail q (by simp [hq]) e he) hsel
  · intro M sfmt targets src t rest f hsrc hsel
    match src, hsrc with
    | c :: src', _ =>
      simp only [pparse, hsel]

/-- A concrete matcher for witnesses: treats the alternative text as a
literal and matches it as an anchored prefix, with no groups — agreeing
with `re.match` on the regex-metacharacter-free alternatives used in the
witnesses. -/
def litMatcher : Matcher := fun expr src =>
  if expr.data.isPrefixOf src then some ⟨expr.data, []⟩ else none

/-- A concrete matcher for the C3 witness: `gg` matches one character
with a non-participating named group (its node construction fails and is
swallowed); any other alternative text is matched as a literal anchored
prefix with no groups; `zz` therefore fails to match `abab`. -/
def c3wMatcher : Matcher := fun expr src =>
  if expr = "gg" then some ⟨['g'], [("nope", none)]⟩
  else if expr.data.isPrefixOf src then some ⟨expr.data, []⟩ else none

/-- The recursion stub for the C3 witness's alternative-level conjuncts
(never invoked: the succeeding alternative has no groups, and the
failing group's value is `None` before any recursion). -/
def c3wRecurse (_ : List Char) (_ : List (String × List String)) :
    Except PErr (List Tree) := .error .fuel

/-- Witness for C3 on the source `abab`: the alternatives `zz` (no
match) and `gg` (matches, but its capture's node construction fails and
is swallowed) are passed over, `ab` is selected ahead of the
also-matching `a`; a symbol whose alternatives all fail is passed over
likewise; and the parse step appends the selected node and continues
after `ab`. -/
theorem c3_first_alternative_wins_witness :
    (∀ e ∈ ["zz", "gg"], altAttempt c3wMatcher [] c3wRecurse "S" e "abab".data = none) ∧
    altAttempt c3wMatcher [] c3wRecurse "S" "ab" "abab".data =
      some (Tree.dict [("S", Tree.str "ab")], "ab".data) ∧
    tryAlts c3wMatcher [] [] c3wRecurse "S" (["zz", "gg"] ++ "ab" :: ["a"]) "abab".data =
      (some (Tree.dict [("S", Tree.str "ab")], "ab".data), "abab".data) ∧
    trySyms c3wMatcher [] [] c3wRecurse
        ([("T", ["zz", "gg"])] ++ ("S", ["ab", "a"]) :: []) "abab".data =
      (some (Tree.dict [("S", Tree.str "ab")], "ab".data), "abab".data) ∧
    pparse c3wMatcher [] [] 2 [("S", ["ab", "a"])] "abab".data =
      (pparse c3wMatcher [] [] 1 [("S", ["ab", "a"])] "ab".data).map
        (fun ts => Tree.dict [("S", Tree.str "ab")] :: ts) := by
  have hfails : ∀ e ∈ ["zz", "gg"],
      altAttempt c3wMatcher [] c3wRecurse "S" e "abab".data = none := by
    intro e he
    cases he with
    | head => rfl
    | tail _ h2 =>
      cases h2 with
      | head => rfl
      | tail _ h3 => cases h3
  refine ⟨hfails, rfl, ?_, ?_, ?_⟩
  · exact c3_first_alternative_wins.2.1 c3wMatcher [] c3wRecurse "S"
      ["zz", "gg"] "ab" ["a"] "abab".data
      (Tree.dict [("S", Tree.str "ab")], "ab".data) hfails rfl
  · exact c3_first_alternative_wins.2.2.1 c3wMatcher [] c3wRecurse
      [("T", ["zz", "gg"])] "S" ["ab", "a"] [] "abab".data
      (Tree.dict [("S", Tree.str "ab")], "ab".data)
      (by intro p hp e he
          cases hp with
          | head =>
            cases he with
            | head => rfl
            | tail _ h2 =>
              cases h2 with
              | head => rfl
              | tail _ h3 => cases h3
          | tail _ h => cases h)
      rfl
  · exact c3_first_alternative_wins.2.2.2 c3wMatcher [] [("S", ["ab", "a"])]
      "abab".data (Tree.dict [("S", Tree.str "ab")]) "ab".data 1
      (by decide) rfl

/-! ## Translation (`Parser._translate`, ecc.py:196-230) -/

/-- Translation errors: the `SyntaxError(_ast)` of ecc.py:213 plus
constructors for the untyped Python exceptions the function can raise,
and `fuel`. -/
inductive TErr where
  | fuel
  | noVariant
  | keyErr (k : String)
  | idxErr
  | typeErr
deriving DecidableEq, Repr

/-- Fuelled scan of a regex text for its named groups `(?P<name>`: the
keys of `re.compile(expr).groupindex` (ecc.py:209) in declaration order.
(The contrived case of a literal escaped `\(\?P<` inside the pattern
is not modelled.) -/
def groupNamesA : Nat → List Char → List String
  | 0, _ => []
  | _ + 1, [] => []
  | f + 1, s@(_ :: rest) =>
    if "(?P<".data.isPrefixOf s then
      match takeWord (s.drop 4) with
      | (w, '>' :: r3) => String.mk w :: groupNamesA f r3
      | _ => groupNamesA f rest
    else groupNamesA f rest

/-- See `groupNamesA`. -/
def groupNames (expr : String) : List String :=
  groupNamesA expr.data.length expr.data

/-- `re.match(r'^d\d+$', group)` (ecc.py:210): the synthetic delimiter
group names. -/
def isDGroup (g : String) : Bool :=
  match g.data with
  | 'd' :: rest => !rest.isEmpty && rest.all Char.isDigit
  | _ => false

/-- `set(a) == set(b)`. -/
def setEq (a b : List String) : Bool :=
  (a.all fun x => b.contains x) && (b.all fun x => a.contains x)

/-- The variant search of ecc.py:208-213 for one `(sym, attrs)` node:
first alternative whose non-delimiter named-group set equals the keys of
a dict `attrs`, or (for a string `attrs`) the first alternative the
plain `re.match` (no DOTALL — oracle `M2`) accepts; exhaustion raises
the `SyntaxError(_ast)` of line 213; a list `attrs` raises `TypeError`
in `re.match`. -/
def pickVarA (M2 : Matcher) (attrs : Tree) : List String → Nat → Except TErr Nat
  | [], _ => .error .noVariant
  | expr :: rest, i =>
    let groups := (groupNames expr).filter fun g => !isDGroup g
    match attrs with
    | .dict l =>
      if setEq (l.map fun e => e.1) groups then .ok i
      else pickVarA M2 attrs rest (i + 1)
    | .str t =>
      if (M2 expr t.data).isSome then .ok i else pickVarA M2 attrs rest (i + 1)
    | .list _ => .error .typeErr

/-- `self.sfmt[sym]` then the variant search. -/
def pickVar (M2 : Matcher) (sfmt : List (String × List String)) (sym : String)
    (attrs : Tree) : Except TErr Nat :=
  match List.lookup sym sfmt with
  | none => .error (.keyErr sym)
  | some alts => pickVarA M2 attrs alts 0

/-- `{val[1:]: attrs[val[1:]]}` then a full recursive `_translate` on it
(ecc.py:217 and 227): look the capture up in `attrs` (with Python's
`TypeError` when `attrs` is not a dict and `KeyError` when the key is
missing) and translate the singleton dict through `rec`. -/
def derefAttr (rec : List Tree → Except TErr (List Tree)) (attrs : Tree)
    (key : String) : Except TErr Tree := do
  let v ← match attrs with
    | .dict l =>
      match List.lookup key l with
      | some v => Except.ok v
      | none => Except.error (TErr.keyErr key)
    | _ => Except.error TErr.typeErr
  let ir ← rec [Tree.dict [(key, v)]]
  if ir.length > 1 then .ok (.list ir)
  else match ir with
    | [x] => .ok x
    | _ => .error .idxErr

/-- Resolve one instruction opcode (ecc.py:216-219): `&name` translates
the bound sub-AST; `#`/`*` prepend the tag to a string `attrs` (a
non-string raises `TypeError`); anything else is the literal opcode. -/
def resolveOpc (rec : List Tree → Except TErr (List Tree)) (attrs : Tree)
    (opc : String) : Except TErr Tree :=
  match opc.data with
  | '&' :: nm => derefAttr rec attrs (String.mk nm)
  | '#' :: _ =>
    match attrs with
    | .str t => .ok (.str ("#" ++ t))
    | _ => .error .typeErr
  | '*' :: _ =>
    match attrs with
    | .str t => .ok (.str ("*" ++ t))
    | _ => .error .typeErr
  | _ => .ok (.str opc)

/-- Resolve one operand value (ecc.py:227-229): `&name` translates the
bound sub-AST, anything else is copied verbatim as a tagged atom. -/
def resolveOpr (rec : List Tree → Except TErr (List Tree)) (attrs : Tree) :
    Option String → Except TErr (Option Tree)
  | none => .ok none
  | some v =>
    match v.data with
    | '&' :: nm => (derefAttr rec attrs (String.mk nm)).map some
    | _ => .ok (some (.str v))

/-- The pending work of `Parser._translate`: the loop over the ast items
(`seq`, ecc.py:206), over one item's `(sym, attrs)` entries (`entries`,
ecc.py:207) and over the selected variant's instructions (`inss`,
ecc.py:215), producing the list of appended ir items. -/
inductive TJob where
  | seq : List Tree → TJob
  | entries : List (String × Tree) → TJob
  | inss : Tree → List Ins → TJob

/-- The body of `Parser._translate` (ecc.py:196-229) as a fuelled
machine, parameterized by the plain-match oracle `M2` used for variant
identification of string nodes. -/
def transRun (M2 : Matcher) (sfmt : List (String × List String))
    (smap : List (String × List (List Ins))) :
    Nat → TJob → Except TErr (List Tree)
  | 0, _ => .error .fuel
  | _ + 1, .seq [] => .ok []
  | f + 1, .seq (t :: rest) => do
    let a ← match t with
      | .dict l => transRun M2 sfmt smap f (.entries l)
      | _ => Except.error TErr.typeErr
    let b ← transRun M2 sfmt smap f (.seq rest)
    .ok (a ++ b)
  | _ + 1, .entries [] => .ok []
  | f + 1, .entries ((sym, attrs) :: rest) => do
    let var ← pickVar M2 sfmt sym attrs
    let inss ← match List.lookup sym smap with
      | none => Except.error (TErr.keyErr sym)
      | some varss =>
        match varss.get? var with
        | none => Except.error TErr.idxErr
        | some inss => Except.ok inss
    let a ← transRun M2 sfmt smap f (.inss attrs inss)
    let b ← transRun M2 sfmt smap f (.entries rest)
    .ok (a ++ b)
  | _ + 1, .inss _ [] => .ok []
  | f + 1, .inss attrs (ins :: rest) => do
    let opcVal ← resolveOpc (fun l => transRun M2 sfmt smap f (.seq l)) attrs ins.opc
    let tgtVal ← resolveOpr (fun l => transRun M2 sfmt smap f (.seq l)) attrs ins.tgt
    let srcVal ← resolveOpr (fun l => transRun M2 sfmt smap f (.seq l)) attrs ins.src
    let oprs := [("tgt", tgtVal), ("src", srcVal)].filterMap
      fun e => e.2.map fun v => (e.1, v)
    if oprs.isEmpty then do
      let b ← transRun M2 sfmt smap f (.inss attrs rest)
      .ok (opcVal :: b)
    else
      match opcVal with
      | .str k => do
        let b ← transRun M2 sfmt smap f (.inss attrs rest)
        .ok (.dict [(k, .dict oprs)] :: b)
      | _ => .error .typeErr

/-- `Parser._translate` proper: run the item loop on the AST (a non-list
is iterated as the one-element list), then return the single item or the
sequence — indexing `ir[0]` of an empty result raises the untyped
`IndexError` of ecc.py:230. -/
def transFull (M2 : Matcher) (sfmt : List (String × List String))
    (smap : List (String × List (List Ins))) (fuel : Nat) (ast : Tree) :
    Except TErr Tree := do
  let elems := match ast with
    | .list xs => xs
    | t => [t]
  let ir ← transRun M2 sfmt smap fuel (.seq elems)
  if ir.length > 1 then .ok (.list ir)
  else match ir with
    | [x] => .ok x
    | _ => .error .idxErr

/-! ## The parse pipeline (`Parser.parse`, ecc.py:95-121) -/

/-- The deletion/substitution stage of `Parser._preprocess`
(ecc.py:133-135): each entry models one `re.sub(pattern, repl, ·)`
application, in declaration order. -/
def applyRewrites (rws : List (List Char → List Char)) (src : List Char) :
    List Char :=
  rws.foldl (fun s r => r s) src

/-- The errors of the whole pipeline. -/
inductive ParseErr where
  | prep (e : PrepErr)
  | srcErr (e : PErr)
  | trans (e : TErr)

/-- `Parser.parse` (ecc.py:95-121): preprocess (deletions and
substitutions, then the balance rewrite), recursive descent from the
origins (all formats when no `.org` symbol was declared, ecc.py:113),
reduce, translate, reduce. -/
def parseRun (M M2 : Matcher) (sfmt : List (String × List String))
    (smap : List (String × List (List Ins)))
    (sorg : List (String × List String)) (sbal : List (Char × Char))
    (rws : List (List Char → List Char)) (fuel : Nat) (source : List Char) :
    Except ParseErr Tree := do
  let s1 := applyRewrites rws source
  let s2 ← (preprocessBal sbal s1).mapError ParseErr.prep
  let targets := if sorg.isEmpty then sfmt else sorg
  let astL ← (pparse M sfmt sbal fuel targets s2).mapError ParseErr.srcErr
  let ast := reduce (.list astL)
  let ir ← (transFull M2 sfmt smap fuel ast).mapError ParseErr.trans
  pure (reduce ir)

theorem balRewrite_nil (sbal : List (Char × Char)) :
    balRewrite sbal [] = (0, []) := by
  show List.foldl _ (0, []) sbal = (0, [])
  induction sbal with
  | nil => rfl
  | cons p t ih =>
    have h : balPass p.1 p.2 (0 : Int) [] = (0, []) := rfl
    simpa [List.foldl, h] using ih

/-- C10: for every source whose preprocessed text is empty, `parse` does
not return an empty IR — the recursive descent yields the empty node
list, reduction keeps it as the empty list, and the translation step's
final `ir[0]` (ecc.py:230) indexes an empty list, so the call fails with
the untyped index-out-of-range error (`TErr.idxErr` here), which is none
of the typed errors of the error table.  This holds for every grammar,
matcher and fuel. -/
theorem c10_empty_source_index_error
    (M M2 : Matcher) (sfmt : List (String × List String))
    (smap : List (String × List (List Ins)))
    (sorg : List (String × List String)) (sbal : List (Char × Char))
    (rws : List (List Char → List Char)) (fuel : Nat) (source : List Char)
    (hpre : applyRewrites rws source = []) :
    pparse M sfmt sbal fuel (if sorg.isEmpty then sfmt else sorg) [] = .ok [] ∧
    transFull M2 sfmt smap (fuel + 1) (reduce (.list [])) = .error .idxErr ∧
    parseRun M M2 sfmt smap sorg sbal rws (fuel + 1) source =
      .error (.trans .idxErr) := by
  have hparse : pparse M sfmt sbal (fuel + 1)
      (if sorg.isEmpty then sfmt else sorg) [] = .ok [] := by
    cases fuel <;> rfl
  have hred : reduce (Tree.list []) = Tree.list [] := by
    rw [reduce_list]
    rfl
  have htrans : transFull M2 sfmt smap (fuel + 1) (reduce (.list [])) =
      .error .idxErr := by
    rw [hred]
    rfl
  refine ⟨by cases fuel <;> rfl, htrans, ?_⟩
  unfold parseRun
  rw [hpre]
  have hbal : preprocessBal sbal [] = .ok [] := by
    unfold preprocessBal
    rw [balRewrite_nil]
    rfl
  simp only [hbal, Except.mapError, exbind_ok, hparse, hred, htrans]
  rfl

/-- Witness for C10 at the empty source with no rewrite rules and an
empty grammar. -/
theorem c10_empty_source_index_error_witness :
    applyRewrites [] [] = ([] : List Char) ∧
    parseRun litMatcher litMatcher [] [] [] [] [] 1 [] =
      .error (.trans .idxErr) :=
  ⟨rfl, (c10_empty_source_index_error litMatcher litMatcher [] [] [] [] [] 0 []
    rfl).2.2⟩

/-! ## GrammarLoader (`Parser.__init__`, ecc.py:35-93)

`__init__` first extracts directive payloads with `re.findall` on the
whitespace-normalized grammar text; the embedding takes those payload
pairs as given — `fmtDirs` / `mapDirs` are the `(sym, exprs)` pairs of
`re.findall(FMT, grammar)` / `re.findall(MAP, grammar)`, `sbal` the
pairs of `re.findall(BAL, grammar)` and `orgSyms` the matches of
`re.findall(ORG, grammar)`.  Everything after the extraction — the `|` /
`;` alternative splitting, the balanced-delimiter embedding into the
format regexes and the `INS` parsing of the map entries — is embedded
concretely. -/

/-- Split on a separator character, keeping empty pieces. -/
def splitChar (sep : Char) : List Char → List (List Char)
  | [] => [[]]
  | c :: rest =>
    if c = sep then [] :: splitChar sep rest
    else
      match splitChar sep rest with
      | p :: ps => (c :: p) :: ps
      | [] => [[c]]

/-- Strip leading whitespace. -/
def trimL (s : List Char) : List Char := s.dropWhile Char.isWhitespace

/-- Strip trailing whitespace. -/
def trimR (s : List Char) : List Char :=
  (s.reverse.dropWhile Char.isWhitespace).reverse

/-- `re.split(r'\s*<sep>\s*', s)` for a one-character separator (the
`OR` and `AND` separators of ecc.py:31-32): split on the separator, then
strip the whitespace adjacent to each separator occurrence. -/
def splitSepTrim (sep : Char) (s : List Char) : List (List Char) :=
  match splitChar sep s with
  | [] => []
  | [p] => [p]
  | p :: ps => trimR p :: go ps
where
  go : List (List Char) → List (List Char)
    | [] => []
    | [q] => [trimL q]
    | q :: qs => trimL (trimR q) :: go qs

/-- Loader errors: the `SyntaxError` of ecc.py:77 (a format alternative
with unbalanced escaped delimiters) and the `AttributeError` of
ecc.py:88 (a map entry the `INS` pattern does not match). -/
inductive LoadErr where
  | unbalancedFmt (sym : String) (var : Nat)
  | badIns (expr : String)
deriving DecidableEq, Repr

/-- One delimiter-embedding pass over a format alternative for the
balance pair `(pfx, sfx)` (the `while` loop of ecc.py:64-76): an escaped
prefix `\pfx` becomes the named group `(?P<d{lim}>@[0-9]+)\pfx` (and
`ctr := lim + 1`, `lim := lim + 1`, `ord := ord + 1`); an escaped suffix
`\sfx` becomes the back-reference `(?P=d{ctr-1})\sfx` (after
decrementing `ctr`, and `ord := ord - 1`); inserted text is skipped.
Returns the final `(ctr, lim, ord)` and the rewritten alternative. -/
def embedPassA (pfx sfx : Char) :
    Nat → Int → Int → Int → List Char → Int × Int × Int × List Char
  | 0, ctr, lim, o, s => (ctr, lim, o, s)
  | _ + 1, ctr, lim, o, [] => (ctr, lim, o, [])
  | f + 1, ctr, lim, o, s@(c :: rest) =>
    if ['\\', pfx].isPrefixOf s then
      let grp := "(?P<d".data ++ (toString lim).data ++ ">@[0-9]+)".data ++
        ['\\', pfx]
      let r := embedPassA pfx sfx f (lim + 1) (lim + 1) (o + 1) (s.drop 2)
      (r.1, r.2.1, r.2.2.1, grp ++ r.2.2.2)
    else if ['\\', sfx].isPrefixOf s then
      let grp := "(?P=d".data ++ (toString (ctr - 1)).data ++ ")".data ++
        ['\\', sfx]
      let r := embedPassA pfx sfx f (ctr - 1) lim (o - 1) (s.drop 2)
      (r.1, r.2.1, r.2.2.1, grp ++ r.2.2.2)
    else
      let r := embedPassA pfx sfx f ctr lim o rest
      (r.1, r.2.1, r.2.2.1, c :: r.2.2.2)

/-- The balanced-delimiter embedding of one format alternative
(ecc.py:59-78): `ctr`, `lim` and `ord` start at 0 for the alternative
and persist across the declared pairs; after each pair's pass a nonzero
nesting order raises the grammar error of line 77. -/
def embedFmt (sym : String) (var : Nat) :
    List (Char × Char) → Int → Int → Int → List Char →
      Except LoadErr (List Char)
  | [], _, _, _, fmt => .ok fmt
  | (pfx, sfx) :: t, ctr, lim, o, fmt =>
    let r := embedPassA pfx sfx fmt.length ctr lim o fmt
    if r.2.2.1 ≠ 0 then .error (.unbalancedFmt sym var)
    else embedFmt sym var t r.1 r.2.1 r.2.2.1 r.2.2.2

/-- Embed every alternative of one symbol, tracking the variant index. -/
def embedAlts (sbal : List (Char × Char)) (sym : String) :
    Nat → List (List Char) → Except LoadErr (List String)
  | _, [] => .ok []
  | var, fmt :: rest => do
    let fmt' ← embedFmt sym var sbal 0 0 0 fmt
    let rest' ← embedAlts sbal sym (var + 1) rest
    .ok (String.mk fmt' :: rest')

/-- A loaded source grammar: the embedded format table, the origin
subset and the map table of parsed instruction lists. -/
structure SGrammar where
  sfmt : List (String × List String)
  sorg : List (String × List String)
  smap : List (String × List (List Ins))

/-- Parse the instruction list of one map alternative (the `re.split(AND,
…)` and `re.match(INS, …).groupdict()` of ecc.py:88-89); an alternative
the `INS` pattern does not match crashes the load (`badIns`). -/
def parseInsList (exprs : List Char) : Except LoadErr (List Ins) :=
  go (splitSepTrim ';' exprs)
where
  go : List (List Char) → Except LoadErr (List Ins)
    | [] => .ok []
    | e :: rest => do
      match insParse (String.mk e) with
      | none => .error (.badIns (String.mk e))
      | some ins => (go rest).map fun l => ins :: l

/-- Build `smap` for one symbol. -/
def parseMapAlts : List (List Char) → Except LoadErr (List (List Ins))
  | [] => .ok []
  | a :: rest => do
    let i ← parseInsList a
    let r ← parseMapAlts rest
    .ok (i :: r)

/-- The table-building part of `Parser.__init__` (ecc.py:56-93), from
the extracted directive payloads: split the format bodies on `|`, embed
the balanced delimiters, restrict to the `.org` symbols for `sorg`, and
split/`INS`-parse the map bodies.  No relation between the number of
format alternatives and map alternatives of a symbol is checked
anywhere. -/
def loadTables (sbal : List (Char × Char)) (fmtDirs mapDirs : List (String × String))
    (orgSyms : List String) : Except LoadErr SGrammar := do
  let sfmt ← go sbal fmtDirs
  let smap ← goMap mapDirs
  .ok ⟨sfmt, sfmt.filter (fun e => orgSyms.contains e.1), smap⟩
where
  go (sbal : List (Char × Char)) :
      List (String × String) → Except LoadErr (List (String × List String))
    | [] => .ok []
    | (sym, exprs) :: rest => do
      let alts ← embedAlts sbal sym 0 (splitSepTrim '|' exprs.data)
      let r ← go sbal rest
      .ok ((sym, alts) :: r)
  goMap : List (String × String) → Except LoadErr (List (String × List (List Ins)))
    | [] => .ok []
    | (sym, exprss) :: rest => do
      let alts ← parseMapAlts (splitSepTrim '|' exprss.data)
      let r ← goMap rest
      .ok ((sym, alts) :: r)

/-- C4 counterexample: the grammar `.fmt S ::= a | b  .map S ::= x` has
`|formats[S]| = 2 ≠ 1 = |maps[S]|`, yet loading succeeds — `Parser.__init__`
performs no arity check — and the loaded grammar violates the claimed
invariant. -/
theorem c4_counterexample :
    loadTables [] [("S", "a|b")] [("S", "x")] [] =
      .ok ⟨[("S", ["a", "b"])], [], [("S", [[⟨"x", none, none⟩]])]⟩ ∧
    (List.lookup "S" [("S", ["a", "b"])]).map List.length = some 2 ∧
    (List.lookup "S" [("S", [[(⟨"x", none, none⟩ : Ins)]])]).map List.length =
      some 1 ∧
    (2 : Nat) ≠ 1 := ⟨rfl, rfl, rfl, by decide⟩

/-- C4 (amended): grammar loading performs no arity check — a symbol may
load with `|formats[sym]| ≠ |maps[sym]|` and no arity-mismatch grammar
error exists; the mismatch first manifests during translation, as the
untyped index error of `smap[sym][var]` (ecc.py:215) when a variant
index beyond the map list is selected (here variant 1 of `S` against the
single map alternative). -/
theorem c4_no_arity_check_at_load :
    loadTables [] [("S", "a|b")] [("S", "x")] [] =
      .ok ⟨[("S", ["a", "b"])], [], [("S", [[⟨"x", none, none⟩]])]⟩ ∧
    transRun litMatcher [("S", ["a", "b"])] [("S", [[⟨"x", none, none⟩]])] 2
      (.entries [("S", Tree.str "b")]) = .error .idxErr := ⟨rfl, rfl⟩

end ECC
